import Mathlib

/-!
# cga-font-print: a shallow embedding of `main.c`

The program reads a character ROM (8 bytes per glyph, one byte per pixel row,
most significant bit leftmost) and paints every glyph into a 128 pixel wide
RGBA bitmap, 16 glyphs per grid row, over a two-tone checkerboard.

Conventions of the embedding:

* a byte is a `Nat`; a value stored in a `uint8_t` is reduced `% 256`;
* a `size_t` is a `Nat` reduced `% 2 ^ 64` where the C expression could wrap;
* the bitmap `png_bytepp` is a list of rows, each row a list of bytes;
  a store outside the allocation yields `none`;
* the file descriptor is the list of results that the successive calls
  `read(fd, current_char, 8)` return before the end of the stream; once the
  list is used up `read` returns 0;
* an `unsigned int` is a `Nat` reduced `% 2 ^ 32`; a loop that may not end is
  run for a number of steps after which its state can only repeat;
* a pointer that `malloc` or `calloc` returned as `NULL` has no byte behind
  it: a store through it yields `none`.
-/

namespace CgaFontPrint

/-! ## Constants (`#define`s) -/

/-- Source: `#define IMAGE_WIDTH 128`. -/
def IMAGE_WIDTH : Nat := 128

/-- Source: `#define CHAR_SIZE 8`. -/
def CHAR_SIZE : Nat := 8

/-- Source: `#define CHARS_PER_IMAGE_ROW 16`. -/
def CHARS_PER_IMAGE_ROW : Nat := 16

/-- Source: `#define IMAGE_PIXEL_SIZE 4` (RGBA, 8 bits per channel). -/
def IMAGE_PIXEL_SIZE : Nat := 4

/-- The modulus of `size_t` arithmetic. -/
def SIZE_MOD : Nat := 2 ^ 64

/-- The modulus of `unsigned int` arithmetic. -/
def UINT_MOD : Nat := 2 ^ 32

/-- Conversion of a signed value (`off_t`, `int`) to `size_t`. -/
def to_size_t (x : Int) : Nat := (x % (SIZE_MOD : Int)).toNat

/-! ## Geometry -/

/-- Source: `get_height`, `return CHAR_SIZE * (file_size / IMAGE_WIDTH);` in `size_t`. -/
def get_height (file_size : Nat) : Nat :=
  (CHAR_SIZE * (file_size / IMAGE_WIDTH)) % SIZE_MOD

/-! ## The bitmap -/

/-- The bitmap behind `png_bytepp`: a list of rows of bytes. -/
abbrev Buffer := List (List Nat)

/-- A bitmap of `height` zero-filled rows of `IMAGE_PIXEL_SIZE * IMAGE_WIDTH`
bytes: what the allocation loop of `main` leaves when it ends and every
`calloc(sizeof(png_byte), IMAGE_PIXEL_SIZE * IMAGE_WIDTH)` succeeded. -/
def alloc_rows (height : Nat) : Buffer :=
  List.replicate height (List.replicate (IMAGE_PIXEL_SIZE * IMAGE_WIDTH) 0)

/-- Source: `memset(s, c, n)` on a local array. -/
def memset (s : List Nat) (c n : Nat) : List Nat :=
  List.replicate n c ++ s.drop n

/-- Source: `memcpy(dst + off, src, n)` with `n = src.length`; `none` when the
destination range leaves the allocation. -/
def memcpy (dst : List Nat) (off : Nat) (src : List Nat) : Option (List Nat) :=
  if off + src.length ≤ dst.length then
    some (dst.take off ++ src ++ dst.drop (off + src.length))
  else none

/-- Source: `memcpy(&(row_data[out_row][out_col]), color, IMAGE_PIXEL_SIZE)`;
`none` when `out_row` is not a row of the bitmap or the four bytes do not lie
inside that row. -/
def store_pixel (row_data : Buffer) (out_row out_col : Nat) (color : List Nat) :
    Option Buffer :=
  match row_data[out_row]? with
  | none => none
  | some r =>
    match memcpy r out_col (color.take IMAGE_PIXEL_SIZE) with
    | none => none
    | some r' => some (row_data.set out_row r')

/-- Byte `i` of row `y` of the bitmap, when it exists. -/
def getByte (rows : Buffer) (y i : Nat) : Option Nat :=
  match rows[y]? with
  | none => none
  | some r => r[i]?

/-- The four bytes of the pixel in row `y`, pixel column `x`, when they exist. -/
def pixel (rows : Buffer) (y x : Nat) : Option (List Nat) :=
  match rows[y]? with
  | none => none
  | some r =>
    if IMAGE_PIXEL_SIZE * x + IMAGE_PIXEL_SIZE ≤ r.length then
      some ((r.drop (IMAGE_PIXEL_SIZE * x)).take IMAGE_PIXEL_SIZE)
    else none

/-! ## The rasterizer -/

/-- Source: lines 104-110, the array `color` before the foreground test: bright
magenta, replaced by regular magenta when the checkerboard parity is odd. -/
def background_color (chars_processed : Nat) : List Nat :=
  let color : List Nat := [0xFF, 0x55, 0xFF, 0xFF]
  if (chars_processed + (chars_processed / CHARS_PER_IMAGE_ROW)) % 2 ≠ 0 then
    ((color.set 0 0xAA).set 1 0x00).set 2 0xAA
  else color

/-- Source: lines 104-114, the colour of one pixel from the glyph index and the
current (shifted) row byte: `if (col_data & 0x80) memset(color, 0xFF, 3);`. -/
def pixel_color (chars_processed col_data : Nat) : List Nat :=
  let color : List Nat := background_color chars_processed
  if col_data &&& 0x80 ≠ 0 then memset color 0xFF 3 else color

/-- Source: line 115, `(chars_processed / CHARS_PER_IMAGE_ROW) * CHAR_SIZE + row`. -/
def out_row (chars_processed row : Nat) : Nat :=
  (chars_processed / CHARS_PER_IMAGE_ROW) * CHAR_SIZE + row

/-- Source: line 116, the byte offset
`((chars_processed % CHARS_PER_IMAGE_ROW) * CHAR_SIZE * IMAGE_PIXEL_SIZE) + col * IMAGE_PIXEL_SIZE`. -/
def out_col (chars_processed col : Nat) : Nat :=
  ((chars_processed % CHARS_PER_IMAGE_ROW) * CHAR_SIZE * IMAGE_PIXEL_SIZE)
    + col * IMAGE_PIXEL_SIZE

/-- Source: lines 102-119, the loop `for (col = ...; col < CHAR_SIZE; ++col)`;
the first argument counts the iterations still to run (`CHAR_SIZE - col`). -/
def col_loop (chars_processed row : Nat) : Nat → Nat → Nat → Buffer → Option Buffer
  | 0, _, _, row_data => some row_data
  | n + 1, col, col_data, row_data =>
    match store_pixel row_data (out_row chars_processed row) (out_col chars_processed col)
        (pixel_color chars_processed col_data) with
    | none => none
    | some row_data' =>
      col_loop chars_processed row n (col + 1) ((col_data <<< 1) % 256) row_data'

/-- Source: lines 100-120, the loop `for (row = ...; row < CHAR_SIZE; ++row)`;
the first argument counts the iterations still to run (`CHAR_SIZE - row`). -/
def row_loop (chars_processed : Nat) (current_char : List Nat) :
    Nat → Nat → Buffer → Option Buffer
  | 0, _, row_data => some row_data
  | n + 1, row, row_data =>
    match col_loop chars_processed row CHAR_SIZE 0 (current_char.getD row 0 % 256)
        row_data with
    | none => none
    | some row_data' => row_loop chars_processed current_char n (row + 1) row_data'

/-- Source: lines 100-120 for one glyph: both loops from their initial counters. -/
def paint_char (chars_processed : Nat) (current_char : List Nat) (row_data : Buffer) :
    Option Buffer :=
  row_loop chars_processed current_char CHAR_SIZE 0 row_data

/-- The result of one `read(fd, current_char, CHAR_SIZE)`: `none` is a failed
call (`-1`), `some bs` delivers the bytes `bs`. -/
abbrev ReadOutcome := Option (List Nat)

/-- The value `read` returns. -/
def bytes_read (r : ReadOutcome) : Int :=
  match r with
  | none => -1
  | some bs => (bs.length : Int)

/-- The lines the program prints. -/
inductive Msg where
  | wrong_argument_count
  | usage
  | reading_character_rom
  | unable_to_open_file
  | error_seeking_file
  | warning_not_processed (bytes : Int)
  | error_read_expected (chars_processed chars_expected : Nat)
  | writing_output_image
  | error_writing_file
  | unable_to_open_output_file
  | unable_to_create_png_object
  | unable_to_create_png_structures
  | error_writing_png_file
  deriving DecidableEq, Repr

/-- What `read_char_rom` leaves behind: its return value, the bitmap, the lines
printed, and the reads of the descriptor not yet made. -/
structure RomResult where
  chars_processed : Nat
  row_data : Buffer
  output : List Msg
  fd : List ReadOutcome
  deriving DecidableEq, Repr

/-- Source: lines 95-122, the `while` loop of `read_char_rom`, from the state
(`fd`, `chars_processed`, `row_data`, lines printed so far). The counter
`chars_processed` is not reduced `% 2 ^ 64`: it never exceeds the number of
reads made, and neither `out_row`, `out_col` nor the parity sum can wrap for a
counter below `2 ^ 63`. -/
def read_char_rom_loop :
    List ReadOutcome → Nat → Buffer → List Msg → Option RomResult
  | [], chars_processed, row_data, output =>
    some ⟨chars_processed, row_data, output, []⟩
  | r :: fd, chars_processed, row_data, output =>
    if bytes_read r = 0 then
      some ⟨chars_processed, row_data, output, fd⟩
    else if bytes_read r ≠ (CHAR_SIZE : Int) then
      some ⟨chars_processed, row_data,
        output ++ [Msg.warning_not_processed (bytes_read r)], fd⟩
    else
      match paint_char chars_processed (r.getD []) row_data with
      | none => none
      | some row_data' => read_char_rom_loop fd (chars_processed + 1) row_data' output

/-- Source: `read_char_rom`. -/
def read_char_rom (fd : List ReadOutcome) (row_data : Buffer) : Option RomResult :=
  read_char_rom_loop fd 0 row_data []

/-- The reads of a regular file whose unread content is `d`: call number `k`
returns the next `min 8 remaining` bytes, and after the last byte `read`
returns 0. -/
def file_reads (d : List Nat) : List ReadOutcome :=
  (List.range ((d.length + (CHAR_SIZE - 1)) / CHAR_SIZE)).map
    fun k => some ((d.drop (CHAR_SIZE * k)).take CHAR_SIZE)

/-! ## The encoder and `main` -/

/-- The outcomes of the library calls made by `write_image`: whether `fopen`,
`png_create_write_struct` and `png_create_info_struct` succeed, and whether
libpng finishes without jumping back to the `setjmp` handler. -/
structure PngEnv where
  fopen_ok : Bool
  create_write_struct_ok : Bool
  create_info_struct_ok : Bool
  write_ok : Bool
  deriving DecidableEq, Repr

/-- Source: `write_image`, its return value and the lines it prints. -/
def write_image (png : PngEnv) (_rows : Buffer) (_width _height : Nat) : Int × List Msg :=
  if !png.fopen_ok then (1, [Msg.unable_to_open_output_file])
  else if !png.create_write_struct_ok then (1, [Msg.unable_to_create_png_object])
  else if !png.create_info_struct_ok then (1, [Msg.unable_to_create_png_structures])
  else if !png.write_ok then (1, [Msg.error_writing_png_file])
  else (0, [])

/-- What `main` is given: the argument count, the value of `atoll(argv[3])` as
a `size_t`, the results of `open` and of the two `lseek` calls, whether
`malloc` returns a block for the row pointers, the rows whose `calloc` returns
`NULL`, the reads of the descriptor, and the outcomes inside `write_image`. -/
structure MainEnv where
  argc : Nat
  offset_arg : Nat
  open_result : Int
  lseek_end : Int
  lseek_set : Int
  malloc_ok : Bool
  calloc_null : List Nat
  reads : List ReadOutcome
  png : PngEnv
  deriving DecidableEq, Repr

/-- Source: lines 162-164 of `main`, the loop
`for (unsigned int i = 0; i < height; ++i) rows[i] = calloc(...)`, from the
state (`i`, `rows`). The first numeric argument bounds the evaluations of the
loop condition. A store `rows[i] = ...` through a `NULL` block of row pointers
yields `none`; a row whose `calloc` returned `NULL` is a row without bytes; the
counter is stepped `% 2 ^ 32` while `height` is a `size_t`. -/
def alloc_loop (malloc_ok : Bool) (calloc_null : List Nat) (height : Nat) :
    Nat → Nat → Buffer → Option Buffer
  | 0, _, _ => none
  | fuel + 1, i, rows =>
    if i < height then
      if malloc_ok then
        alloc_loop malloc_ok calloc_null height fuel ((i + 1) % UINT_MOD)
          (rows.set i (if i ∈ calloc_null then []
            else List.replicate (IMAGE_PIXEL_SIZE * IMAGE_WIDTH) 0))
      else none
    else some rows

/-- Source: lines 160-164 of `main`: `malloc(height * sizeof(png_bytep))` and
the allocation loop from `i = 0` over a block of `height` row pointers none of
which is set yet. The loop is given `2 ^ 32 + 1` evaluations of its condition:
if it has not ended by then the counter has taken every `unsigned int` value
with `i < height` true each time, and it never ends. `none` is a run that does
not get past the allocation. -/
def allocate (malloc_ok : Bool) (calloc_null : List Nat) (height : Nat) : Option Buffer :=
  alloc_loop malloc_ok calloc_null height (UINT_MOD + 1) 0 (List.replicate height [])

/-- What a run of `main` leaves behind: the exit code, the lines printed, and
the calls of `write_image` with their arguments (rows, width, height). -/
structure MainResult where
  exit_code : Int
  output : List Msg
  write_image_calls : List (Buffer × Nat × Nat)
  deriving DecidableEq, Repr

/-- Source: `main`. `none` stands for a run that does not end in a `return`:
the allocation loop never ends, or a store goes through a `NULL` pointer or
outside the bitmap. The release loop at the end runs over the same counter
range as the allocation loop and ends when that one did. -/
def main (env : MainEnv) : Option MainResult :=
  if env.argc ≠ 3 ∧ env.argc ≠ 4 then
    some ⟨1, [Msg.wrong_argument_count, Msg.usage], []⟩
  else
    let offset : Nat := if env.argc = 4 then env.offset_arg else 0
    if env.open_result = -1 then
      some ⟨1, [Msg.reading_character_rom, Msg.unable_to_open_file], []⟩
    else if env.lseek_end = -1 then
      some ⟨1, [Msg.reading_character_rom, Msg.error_seeking_file], []⟩
    else
      let file_size : Nat := to_size_t (env.lseek_end - (offset : Int))
      if to_size_t env.lseek_set ≠ offset then
        some ⟨1, [Msg.reading_character_rom, Msg.error_seeking_file], []⟩
      else
        let height : Nat := get_height file_size
        match allocate env.malloc_ok env.calloc_null height with
        | none => none
        | some rows =>
          match read_char_rom env.reads rows with
          | none => none
          | some res =>
            let chars_expected : Nat := ((height / 8) * (IMAGE_WIDTH / 8)) % SIZE_MOD
            if res.chars_processed ≠ chars_expected then
              some ⟨1, [Msg.reading_character_rom] ++ res.output
                ++ [Msg.error_read_expected res.chars_processed chars_expected], []⟩
            else
              let w := write_image env.png res.row_data IMAGE_WIDTH height
              some ⟨0, [Msg.reading_character_rom] ++ res.output ++ [Msg.writing_output_image]
                ++ w.2 ++ (if w.1 ≠ 0 then [Msg.error_writing_file] else []),
                [(res.row_data, IMAGE_WIDTH, height)]⟩

/-- A run on a readable regular file with content `d`, no offset argument:
`open` returns a descriptor, `lseek(fd, 0, SEEK_END)` returns the length,
`lseek(fd, 0, SEEK_SET)` returns 0, `malloc` and every `calloc` return a block
and the reads deliver `d`. -/
def file_env (d : List Nat) (png : PngEnv) : MainEnv :=
  { argc := 3, offset_arg := 0, open_result := 3, lseek_end := (d.length : Int),
    lseek_set := 0, malloc_ok := true, calloc_null := [], reads := file_reads d, png := png }

/-! ## Auxiliary definitions for the statements -/

/-- The byte that painting glyph `g` from the record `bs` leaves at byte offset
`i` of bitmap row `y`, for a position inside the block of `g`: the colour of
the pixel is computed from row byte `y - out_row g 0` after
`(i - out_col g 0) / 4` shifts, and the byte is its component
`(i - out_col g 0) % 4`. -/
def painted_byte (g : Nat) (bs : List Nat) (y i : Nat) : Option Nat :=
  (pixel_color g
    (((bs.getD (y - out_row g 0) 0 % 256) * 2 ^ ((i - out_col g 0) / 4)) % 256))[(i
      - out_col g 0) % 4]?

/-- The index of the glyph whose block holds pixel column `x` of bitmap row `y`
(16 glyphs per grid row, 8 by 8 pixels each). -/
def glyph_at (y x : Nat) : Nat :=
  (y / CHAR_SIZE) * CHARS_PER_IMAGE_ROW + x / CHAR_SIZE

/-- Every bitmap row below `h` is allocated and holds at least
`IMAGE_PIXEL_SIZE * IMAGE_WIDTH` bytes. -/
def Fits (rows : Buffer) (h : Nat) : Prop :=
  ∀ y, y < h → ∃ m, (rows.map List.length)[y]? = some m ∧ IMAGE_PIXEL_SIZE * IMAGE_WIDTH ≤ m

/-- The placement map of the rasterizer: the bitmap row and the pixel column
(byte offset over the pixel size) where cell `(row, col)` of glyph
`chars_processed` is stored. -/
def placement (chars_processed row col : Nat) : Nat × Nat :=
  (out_row chars_processed row, out_col chars_processed col / IMAGE_PIXEL_SIZE)

/-- Source: lines 134-137 of `main`, the local `offset`: `atoll(argv[3])` when
a fourth argument is given, else 0. -/
def offset_of (env : MainEnv) : Nat :=
  if env.argc = 4 then env.offset_arg else 0

/-- Source: lines 148-153 and 160 of `main`, the value of `file_size` that is
handed to `get_height`: the result of `lseek(fd, 0, SEEK_END)` minus the
offset, as a `size_t`. -/
def usable_bytes (env : MainEnv) : Nat :=
  to_size_t (env.lseek_end - (offset_of env : Int))

/-- Source: line 168 of `main`, `chars_expected = ((height / 8) * (IMAGE_WIDTH / 8))`
for the height computed from the usable bytes. -/
def chars_expected (env : MainEnv) : Nat :=
  ((get_height (usable_bytes env) / 8) * (IMAGE_WIDTH / 8)) % SIZE_MOD

/-- A run in which the size reported by `lseek` is 128 bytes but the descriptor
delivers nothing: the source was cut after its size was taken. -/
def truncated_env : MainEnv :=
  { argc := 3, offset_arg := 0, open_result := 3, lseek_end := 128,
    lseek_set := 0, malloc_ok := true, calloc_null := [], reads := [],
    png := ⟨true, true, true, true⟩ }

/-- A run on a 128-byte file with the offset argument 256: both `lseek` calls
succeed, `file_size - offset` wraps to `2 ^ 64 - 128` usable bytes, and the
`malloc` for the row pointers of that height returns `NULL`. -/
def offset_past_end_env : MainEnv :=
  { argc := 4, offset_arg := 256, open_result := 3, lseek_end := 128,
    lseek_set := 256, malloc_ok := false, calloc_null := [], reads := [],
    png := ⟨true, true, true, true⟩ }

/-- A run on a regular file with content `d` in which every byte is delivered
and the next call of `read`, the one that would report the end of the stream,
fails with `-1`. -/
def failing_read_env (d : List Nat) (png : PngEnv) : MainEnv :=
  { argc := 3, offset_arg := 0, open_result := 3, lseek_end := (d.length : Int),
    lseek_set := 0, malloc_ok := true, calloc_null := [], reads := file_reads d ++ [none],
    png := png }

/-- The foreground colour, white. -/
def WHITE : List Nat := [0xFF, 0xFF, 0xFF, 0xFF]

/-- The primary background tone, bright magenta. -/
def BRIGHT_MAGENTA : List Nat := [0xFF, 0x55, 0xFF, 0xFF]

/-- The secondary background tone, regular magenta. -/
def MAGENTA : List Nat := [0xAA, 0x00, 0xAA, 0xFF]

/-! # Properties -/

/-! ## Bytes and bits -/

set_option maxRecDepth 100000 in
theorem high_bit_table :
    ∀ b < 256, ∀ c < 8, (((b * 2 ^ c) % 256) &&& 0x80 ≠ 0 ↔ b.testBit (7 - c) = true) := by
  decide

theorem high_bit_after_shifts (b c : Nat) (hc : c < 8) :
    (((b % 256) * 2 ^ c) % 256) &&& 0x80 ≠ 0 ↔ b.testBit (7 - c) = true := by
  have h := high_bit_table (b % 256) (Nat.mod_lt _ (by decide)) c hc
  rw [h]
  have : (256 : Nat) = 2 ^ 8 := by norm_num
  rw [this, Nat.testBit_mod_two_pow]
  have : 7 - c < 8 := by omega
  simp [this]

theorem shift_step (cd k : Nat) :
    (((cd <<< 1) % 256) * 2 ^ k) % 256 = (cd * 2 ^ (k + 1)) % 256 := by
  rw [Nat.shiftLeft_eq, Nat.mod_mul_mod, pow_succ]
  ring_nf

/-! ## Stores -/

theorem memcpy_length {dst src r : List Nat} {off : Nat} (h : memcpy dst off src = some r) :
    r.length = dst.length := by
  unfold memcpy at h
  split at h
  · injection h with h
    subst h
    simp
    omega
  · cases h

theorem memcpy_getElem? {dst src r : List Nat} {off : Nat} (h : memcpy dst off src = some r)
    (i : Nat) :
    r[i]? = if off ≤ i ∧ i < off + src.length then src[i - off]? else dst[i]? := by
  unfold memcpy at h
  split at h
  · rename_i hle
    injection h with h
    subst h
    by_cases h1 : i < off
    · have : ¬ (off ≤ i ∧ i < off + src.length) := by omega
      rw [if_neg this, List.append_assoc, List.getElem?_append_left (by simp; omega)]
      exact List.getElem?_take_of_lt h1
    · rw [List.append_assoc, List.getElem?_append_right (by simp; omega)]
      have hl : (List.take off dst).length = off := by simp; omega
      rw [hl]
      by_cases h2 : i < off + src.length
      · rw [if_pos ⟨by omega, h2⟩, List.getElem?_append_left (by omega)]
      · have : ¬ (off ≤ i ∧ i < off + src.length) := by omega
        rw [if_neg this, List.getElem?_append_right (by omega), List.getElem?_drop]
        congr 1
        omega
  · cases h

theorem store_pixel_spec {rows : Buffer} {r off m : Nat} {color : List Nat}
    (hr : (rows.map List.length)[r]? = some m) (hoff : off + 4 ≤ m)
    (hc : color.length = 4) :
    ∃ rows', store_pixel rows r off color = some rows' ∧
      rows'.map List.length = rows.map List.length ∧
      ∀ y i, getByte rows' y i =
        if y = r ∧ off ≤ i ∧ i < off + 4 then color[i - off]? else getByte rows y i := by
  rw [List.getElem?_map] at hr
  cases hrow : rows[r]? with
  | none => rw [hrow] at hr; cases hr
  | some row =>
    rw [hrow] at hr
    simp only [Option.map_some', Option.some.injEq] at hr
    have htake : color.take IMAGE_PIXEL_SIZE = color := by
      apply List.take_of_length_le
      simp [IMAGE_PIXEL_SIZE, hc]
    have hfit : off + color.length ≤ row.length := by omega
    have hm : memcpy row off color
        = some (row.take off ++ color ++ row.drop (off + color.length)) := by
      unfold memcpy
      rw [if_pos hfit]
    have hlen := memcpy_length hm
    have hget := memcpy_getElem? hm
    refine ⟨rows.set r (row.take off ++ color ++ row.drop (off + color.length)), ?_, ?_, ?_⟩
    · unfold store_pixel
      rw [hrow]
      simp only [htake, hm]
    · apply List.ext_getElem?
      intro k
      rw [List.getElem?_map, List.getElem?_map, List.getElem?_set]
      by_cases hk : r = k
      · subst hk
        have hlt : r < rows.length := by
          rcases List.getElem?_eq_some_iff.mp hrow with ⟨h, _⟩
          exact h
        rw [if_pos rfl, if_pos hlt, hrow]
        simp only [Option.map_some', hlen]
      · rw [if_neg hk]
    · intro y i
      unfold getByte
      rw [List.getElem?_set]
      by_cases hy : r = y
      · subst hy
        have hlt : r < rows.length := by
          rcases List.getElem?_eq_some_iff.mp hrow with ⟨h, _⟩
          exact h
        rw [if_pos rfl, if_pos hlt, hrow]
        have hg := hget i
        simp only [hc] at hg
        simp only [hc, true_and]
        exact hg
      · rw [if_neg hy, if_neg (by intro h; exact hy h.1.symm)]

theorem pixel_color_length (g cd : Nat) : (pixel_color g cd).length = 4 := by
  unfold pixel_color background_color memset
  split <;> split <;> simp

theorem out_col_add (g col n : Nat) : out_col g (col + n) = out_col g col + 4 * n := by
  unfold out_col IMAGE_PIXEL_SIZE
  ring

theorem out_row_add (g row n : Nat) : out_row g (row + n) = out_row g row + n := by
  unfold out_row
  ring

theorem col_loop_spec (g row : Nat) : ∀ (n col cd : Nat) (rows : Buffer) (m : Nat),
    (rows.map List.length)[out_row g row]? = some m → out_col g (col + n) ≤ m → cd < 256 →
    ∃ rows', col_loop g row n col cd rows = some rows' ∧
      rows'.map List.length = rows.map List.length ∧
      ∀ y i, getByte rows' y i =
        if y = out_row g row ∧ out_col g col ≤ i ∧ i < out_col g (col + n) then
          (pixel_color g ((cd * 2 ^ ((i - out_col g col) / 4)) % 256))[(i - out_col g col) % 4]?
        else getByte rows y i := by
  intro n
  induction n with
  | zero =>
    intro col cd rows m _ _ _
    refine ⟨rows, rfl, rfl, ?_⟩
    intro y i
    rw [if_neg]
    rw [Nat.add_zero]
    omega
  | succ n ih =>
    intro col cd rows m hm hfit hcd
    have hstep : out_col g (col + 1) = out_col g col + 4 := out_col_add g col 1
    have hend : out_col g (col + (n + 1)) = out_col g col + 4 * (n + 1) := out_col_add g col (n + 1)
    have hend' : out_col g (col + 1 + n) = out_col g col + 4 * (n + 1) := by
      rw [out_col_add, hstep]; omega
    obtain ⟨rows1, hs1, hd1, hb1⟩ :=
      @store_pixel_spec rows (out_row g row) (out_col g col) m (pixel_color g cd)
        hm (by omega) (pixel_color_length g cd)
    have hcd' : (cd <<< 1) % 256 < 256 := Nat.mod_lt _ (by decide)
    obtain ⟨rows2, hs2, hd2, hb2⟩ :=
      ih (col + 1) ((cd <<< 1) % 256) rows1 m (by rw [hd1]; exact hm) (by omega) hcd'
    refine ⟨rows2, ?_, hd2.trans hd1, ?_⟩
    · simp only [col_loop, hs1, hs2]
    · intro y i
      rw [hb2 y i, hb1 y i, hstep, hend, hend']
      generalize out_col g col = a
      by_cases hy : y = out_row g row
      · by_cases h1 : a + 4 ≤ i ∧ i < a + 4 * (n + 1)
        · rw [if_pos ⟨hy, h1⟩, if_pos ⟨hy, by omega, h1.2⟩, shift_step]
          have e1 : (i - a) / 4 = (i - (a + 4)) / 4 + 1 := by omega
          have e2 : (i - a) % 4 = (i - (a + 4)) % 4 := by omega
          rw [e1, e2]
        · rw [if_neg (by tauto)]
          by_cases h2 : a ≤ i ∧ i < a + 4
          · rw [if_pos ⟨hy, h2⟩, if_pos ⟨hy, h2.1, by omega⟩]
            have e1 : (i - a) / 4 = 0 := by omega
            have e2 : (i - a) % 4 = i - a := by omega
            rw [e1, e2, pow_zero, Nat.mul_one, Nat.mod_eq_of_lt hcd]
          · rw [if_neg (by tauto), if_neg (by omega)]
      · rw [if_neg (by tauto), if_neg (by tauto), if_neg (by tauto)]

theorem row_loop_spec (g : Nat) (bs : List Nat) : ∀ (n row : Nat) (rows : Buffer),
    (∀ y, out_row g row ≤ y → y < out_row g (row + n) →
      ∃ m, (rows.map List.length)[y]? = some m ∧ out_col g CHAR_SIZE ≤ m) →
    ∃ rows', row_loop g bs n row rows = some rows' ∧
      rows'.map List.length = rows.map List.length ∧
      ∀ y i, getByte rows' y i =
        if (out_row g row ≤ y ∧ y < out_row g (row + n)) ∧
            out_col g 0 ≤ i ∧ i < out_col g CHAR_SIZE then
          painted_byte g bs y i
        else getByte rows y i := by
  intro n
  induction n with
  | zero =>
    intro row rows _
    refine ⟨rows, rfl, rfl, ?_⟩
    intro y i
    rw [if_neg]
    rw [Nat.add_zero]
    omega
  | succ n ih =>
    intro row rows hfit
    have hstep : out_row g (row + 1) = out_row g row + 1 := out_row_add g row 1
    have hend : out_row g (row + (n + 1)) = out_row g row + (n + 1) := out_row_add g row (n + 1)
    have hend' : out_row g (row + 1 + n) = out_row g row + (n + 1) := by
      rw [out_row_add, hstep]; omega
    have h0 : out_row g row = out_row g 0 + row := by
      have := out_row_add g 0 row
      rwa [Nat.zero_add] at this
    obtain ⟨m, hm, hle⟩ := hfit (out_row g row) (Nat.le_refl _) (by omega)
    have hcd : bs.getD row 0 % 256 < 256 := Nat.mod_lt _ (by decide)
    obtain ⟨rows1, hs1, hd1, hb1⟩ :=
      col_loop_spec g row CHAR_SIZE 0 (bs.getD row 0 % 256) rows m hm
        (by rw [Nat.zero_add]; exact hle) hcd
    obtain ⟨rows2, hs2, hd2, hb2⟩ := ih (row + 1) rows1 (by
      intro y h1 h2
      rw [hd1]
      exact hfit y (by omega) (by omega))
    refine ⟨rows2, ?_, hd2.trans hd1, ?_⟩
    · simp only [row_loop, hs1, hs2]
    · intro y i
      rw [hb2 y i, hb1 y i, hstep, hend, hend', Nat.zero_add]
      by_cases hi : out_col g 0 ≤ i ∧ i < out_col g CHAR_SIZE
      · by_cases h1 : out_row g row + 1 ≤ y ∧ y < out_row g row + (n + 1)
        · rw [if_pos ⟨h1, hi⟩, if_pos ⟨⟨by omega, h1.2⟩, hi⟩]
        · rw [if_neg (by tauto)]
          by_cases h2 : y = out_row g row
          · rw [if_pos ⟨h2, hi⟩, if_pos ⟨⟨by omega, by omega⟩, hi⟩]
            unfold painted_byte
            have : y - out_row g 0 = row := by omega
            rw [this]
          · rw [if_neg (by tauto), if_neg (by omega)]
      · rw [if_neg (by tauto), if_neg (by tauto), if_neg (by tauto)]

theorem paint_char_spec (g : Nat) (bs : List Nat) (rows : Buffer)
    (hfit : ∀ y, out_row g 0 ≤ y → y < out_row g CHAR_SIZE →
      ∃ m, (rows.map List.length)[y]? = some m ∧ out_col g CHAR_SIZE ≤ m) :
    ∃ rows', paint_char g bs rows = some rows' ∧
      rows'.map List.length = rows.map List.length ∧
      ∀ y i, getByte rows' y i =
        if (out_row g 0 ≤ y ∧ y < out_row g CHAR_SIZE) ∧
            out_col g 0 ≤ i ∧ i < out_col g CHAR_SIZE then
          painted_byte g bs y i
        else getByte rows y i := by
  have h := row_loop_spec g bs CHAR_SIZE 0 rows (by rw [Nat.zero_add]; exact hfit)
  rw [Nat.zero_add] at h
  exact h

theorem block_iff (g y i : Nat) :
    ((out_row g 0 ≤ y ∧ y < out_row g CHAR_SIZE) ∧ out_col g 0 ≤ i ∧ i < out_col g CHAR_SIZE)
      ↔ (i < IMAGE_PIXEL_SIZE * IMAGE_WIDTH ∧ glyph_at y (i / IMAGE_PIXEL_SIZE) = g) := by
  unfold out_row out_col glyph_at CHAR_SIZE CHARS_PER_IMAGE_ROW IMAGE_PIXEL_SIZE IMAGE_WIDTH
  omega

theorem Fits_of_dims {rows rows' : Buffer} {h : Nat}
    (hd : rows'.map List.length = rows.map List.length) (hf : Fits rows h) : Fits rows' h := by
  intro y hy
  rw [hd]
  exact hf y hy

theorem Fits_mono {rows : Buffer} {h h' : Nat} (hle : h' ≤ h) (hf : Fits rows h) :
    Fits rows h' := fun y hy => hf y (Nat.lt_of_lt_of_le hy hle)

theorem paint_char_of_Fits (g : Nat) (bs : List Nat) (rows : Buffer)
    (hfit : Fits rows (out_row g CHAR_SIZE)) :
    ∃ rows', paint_char g bs rows = some rows' ∧
      rows'.map List.length = rows.map List.length ∧
      ∀ y i, getByte rows' y i =
        if i < IMAGE_PIXEL_SIZE * IMAGE_WIDTH ∧ glyph_at y (i / IMAGE_PIXEL_SIZE) = g then
          painted_byte g bs y i
        else getByte rows y i := by
  obtain ⟨rows', h1, h2, h3⟩ := paint_char_spec g bs rows (by
    intro y _ hy
    obtain ⟨m, hm, hle⟩ := hfit y hy
    refine ⟨m, hm, Nat.le_trans ?_ hle⟩
    have := Nat.mod_lt g (show 0 < 16 by decide)
    unfold out_col CHAR_SIZE CHARS_PER_IMAGE_ROW IMAGE_PIXEL_SIZE IMAGE_WIDTH
    omega)
  refine ⟨rows', h1, h2, ?_⟩
  intro y i
  rw [h3 y i]
  by_cases h : i < IMAGE_PIXEL_SIZE * IMAGE_WIDTH ∧ glyph_at y (i / IMAGE_PIXEL_SIZE) = g
  · rw [if_pos h, if_pos ((block_iff g y i).mpr h)]
  · rw [if_neg h, if_neg (fun hh => h ((block_iff g y i).mp hh))]

theorem read_loop_cons_full (bs : List Nat) (fd : List ReadOutcome) (cp : Nat) (rows : Buffer)
    (out : List Msg) (hbs : bs.length = CHAR_SIZE) :
    read_char_rom_loop (some bs :: fd) cp rows out =
      match paint_char cp bs rows with
      | none => none
      | some rows' => read_char_rom_loop fd (cp + 1) rows' out := by
  have hne : bytes_read (some bs) ≠ 0 := by
    simp [bytes_read, hbs, CHAR_SIZE]
  have heq : ¬ bytes_read (some bs) ≠ (CHAR_SIZE : Int) := by
    simp [bytes_read, hbs]
  rw [read_char_rom_loop, if_neg hne, if_neg heq]
  rfl

theorem read_loop_full (tail : List ReadOutcome) :
    ∀ (fulls : List (List Nat)) (cp : Nat) (rows : Buffer) (out : List Msg),
    (∀ bs ∈ fulls, bs.length = CHAR_SIZE) →
    (∀ g, cp ≤ g → g < cp + fulls.length → Fits rows (out_row g CHAR_SIZE)) →
    ∃ rows', read_char_rom_loop (fulls.map some ++ tail) cp rows out
        = read_char_rom_loop tail (cp + fulls.length) rows' out ∧
      rows'.map List.length = rows.map List.length ∧
      ∀ y i, getByte rows' y i =
        if i < IMAGE_PIXEL_SIZE * IMAGE_WIDTH ∧ cp ≤ glyph_at y (i / IMAGE_PIXEL_SIZE) ∧
            glyph_at y (i / IMAGE_PIXEL_SIZE) < cp + fulls.length then
          painted_byte (glyph_at y (i / IMAGE_PIXEL_SIZE))
            (fulls.getD (glyph_at y (i / IMAGE_PIXEL_SIZE) - cp) []) y i
        else getByte rows y i := by
  intro fulls
  induction fulls with
  | nil =>
    intro cp rows out _ _
    refine ⟨rows, rfl, rfl, ?_⟩
    intro y i
    rw [if_neg]
    simp only [List.length_nil, Nat.add_zero]
    omega
  | cons bs rest ih =>
    intro cp rows out hlen hfit
    have hbs : bs.length = CHAR_SIZE := hlen bs (List.mem_cons_self _ _)
    obtain ⟨rows1, hs1, hd1, hb1⟩ :=
      paint_char_of_Fits cp bs rows (hfit cp (Nat.le_refl _) (by simp))
    obtain ⟨rows2, hs2, hd2, hb2⟩ := ih (cp + 1) rows1 out
      (fun b hb => hlen b (List.mem_cons_of_mem _ hb))
      (fun g h1 h2 => Fits_of_dims hd1 (hfit g (by omega) (by simp only [List.length_cons]; omega)))
    refine ⟨rows2, ?_, hd2.trans hd1, ?_⟩
    · have hcount : cp + (bs :: rest).length = cp + 1 + rest.length := by
        simp only [List.length_cons]; omega
      rw [hcount, ← hs2, List.map_cons, List.cons_append, read_loop_cons_full _ _ _ _ _ hbs, hs1]
    · intro y i
      rw [hb2 y i, hb1 y i]
      simp only [List.length_cons]
      generalize glyph_at y (i / IMAGE_PIXEL_SIZE) = g
      by_cases hi : i < IMAGE_PIXEL_SIZE * IMAGE_WIDTH
      · by_cases h1 : cp + 1 ≤ g ∧ g < cp + 1 + rest.length
        · rw [if_pos ⟨hi, h1⟩, if_pos ⟨hi, by omega, by omega⟩]
          have : g - cp = (g - (cp + 1)) + 1 := by omega
          rw [this, List.getD_cons_succ]
        · rw [if_neg (by tauto)]
          by_cases h2 : g = cp
          · rw [if_pos ⟨hi, h2⟩, if_pos ⟨hi, by omega, by omega⟩]
            subst h2
            simp
          · rw [if_neg (by tauto), if_neg (by omega)]
      · rw [if_neg (by tauto), if_neg (by tauto), if_neg (by tauto)]

/-! ## The reads of a regular file -/

/-- The complete 8-byte records of `d`, in order. -/
theorem file_reads_split (d : List Nat) :
    file_reads d
      = ((List.range (d.length / 8)).map fun k => (d.drop (8 * k)).take 8).map some
        ++ (if d.length % 8 = 0 then [] else [some (d.drop (8 * (d.length / 8)))]) := by
  unfold file_reads CHAR_SIZE
  by_cases h : d.length % 8 = 0
  · rw [if_pos h, List.append_nil, List.map_map]
    have : (d.length + (8 - 1)) / 8 = d.length / 8 := by omega
    rw [this]
    rfl
  · rw [if_neg h, List.map_map]
    have : (d.length + (8 - 1)) / 8 = d.length / 8 + 1 := by omega
    rw [this, List.range_succ, List.map_append, List.map_singleton]
    congr 2
    apply congrArg some
    apply List.take_of_length_le
    rw [List.length_drop]
    omega

theorem full_records_length (d : List Nat) :
    ∀ bs ∈ (List.range (d.length / 8)).map (fun k => (d.drop (8 * k)).take 8),
      bs.length = CHAR_SIZE := by
  intro bs hbs
  rw [List.mem_map] at hbs
  obtain ⟨k, hk, rfl⟩ := hbs
  rw [List.mem_range] at hk
  rw [List.length_take, List.length_drop]
  unfold CHAR_SIZE
  omega

theorem full_records_getD (d : List Nat) (g r : Nat) (hg : g < d.length / 8) (hr : r < 8) :
    (((List.range (d.length / 8)).map fun k => (d.drop (8 * k)).take 8).getD g []).getD r 0
      = d.getD (8 * g + r) 0 := by
  have h1 : ((List.range (d.length / 8)).map fun k => (d.drop (8 * k)).take 8).getD g []
      = (d.drop (8 * g)).take 8 := by
    rw [List.getD_eq_getElem?_getD, List.getElem?_map, List.getElem?_range hg]
    rfl
  rw [h1, List.getD_eq_getElem?_getD, List.getD_eq_getElem?_getD, List.getElem?_take_of_lt hr,
    List.getElem?_drop]

/-! ## The whole pass over a regular file -/

theorem read_loop_short (bs : List Nat) (fd : List ReadOutcome) (cp : Nat) (rows : Buffer)
    (out : List Msg) (h0 : bs.length ≠ 0) (h8 : bs.length ≠ CHAR_SIZE) :
    read_char_rom_loop (some bs :: fd) cp rows out =
      some ⟨cp, rows, out ++ [Msg.warning_not_processed (bs.length : Int)], fd⟩ := by
  have hne : bytes_read (some bs) ≠ 0 := by
    simp [bytes_read, h0]
  have hne8 : bytes_read (some bs) ≠ (CHAR_SIZE : Int) := by
    simp only [bytes_read, ne_eq, Nat.cast_inj]
    exact h8
  rw [read_char_rom_loop, if_neg hne, if_pos hne8]
  rfl

theorem painted_byte_file (d : List Nat) (y i : Nat) (hi : i < IMAGE_PIXEL_SIZE * IMAGE_WIDTH)
    (hg : glyph_at y (i / IMAGE_PIXEL_SIZE) < d.length / 8) :
    painted_byte (glyph_at y (i / IMAGE_PIXEL_SIZE))
        (((List.range (d.length / 8)).map fun k => (d.drop (8 * k)).take 8).getD
          (glyph_at y (i / IMAGE_PIXEL_SIZE)) []) y i
      = (pixel_color (glyph_at y (i / IMAGE_PIXEL_SIZE))
          (((d.getD (8 * glyph_at y (i / IMAGE_PIXEL_SIZE) + y % 8) 0 % 256)
            * 2 ^ (i / 4 % 8)) % 256))[i % 4]? := by
  unfold painted_byte
  have e1 : y - out_row (glyph_at y (i / IMAGE_PIXEL_SIZE)) 0 = y % 8 := by
    unfold out_row glyph_at CHAR_SIZE CHARS_PER_IMAGE_ROW IMAGE_PIXEL_SIZE
    unfold IMAGE_PIXEL_SIZE IMAGE_WIDTH at hi
    omega
  have e2 : (i - out_col (glyph_at y (i / IMAGE_PIXEL_SIZE)) 0) / 4 = i / 4 % 8 := by
    unfold out_col glyph_at CHAR_SIZE CHARS_PER_IMAGE_ROW IMAGE_PIXEL_SIZE
    unfold IMAGE_PIXEL_SIZE IMAGE_WIDTH at hi
    omega
  have e3 : (i - out_col (glyph_at y (i / IMAGE_PIXEL_SIZE)) 0) % 4 = i % 4 := by
    unfold out_col glyph_at CHAR_SIZE CHARS_PER_IMAGE_ROW IMAGE_PIXEL_SIZE
    unfold IMAGE_PIXEL_SIZE IMAGE_WIDTH at hi
    omega
  rw [e1, e2, e3, full_records_getD d _ (y % 8) hg (Nat.mod_lt _ (by decide))]

theorem read_char_rom_file (d : List Nat) (rows : Buffer) (rest : List ReadOutcome)
    (hrest : d.length % 8 ≠ 0 ∨ rest = [])
    (hfit : ∀ g, g < d.length / 8 → Fits rows (out_row g CHAR_SIZE)) :
    ∃ res, read_char_rom (file_reads d ++ rest) rows = some res ∧
      res.chars_processed = d.length / 8 ∧
      res.output = (if d.length % 8 = 0 then []
        else [Msg.warning_not_processed ((d.length % 8 : Nat) : Int)]) ∧
      res.fd = rest ∧
      res.row_data.map List.length = rows.map List.length ∧
      ∀ y i, getByte res.row_data y i =
        if i < IMAGE_PIXEL_SIZE * IMAGE_WIDTH ∧
            glyph_at y (i / IMAGE_PIXEL_SIZE) < d.length / 8 then
          (pixel_color (glyph_at y (i / IMAGE_PIXEL_SIZE))
            (((d.getD (8 * glyph_at y (i / IMAGE_PIXEL_SIZE) + y % 8) 0 % 256)
              * 2 ^ (i / 4 % 8)) % 256))[i % 4]?
        else getByte rows y i := by
  have hlenf : ((List.range (d.length / 8)).map fun k => (d.drop (8 * k)).take 8).length
      = d.length / 8 := by simp
  obtain ⟨rows', hs, hd, hb⟩ :=
    read_loop_full ((if d.length % 8 = 0 then [] else [some (d.drop (8 * (d.length / 8)))]) ++ rest)
      ((List.range (d.length / 8)).map fun k => (d.drop (8 * k)).take 8) 0 rows []
      (full_records_length d)
      (fun g _ hg => hfit g (by rw [hlenf] at hg; omega))
  rw [hlenf, Nat.zero_add] at hs
  have hbytes : ∀ y i, getByte rows' y i =
        if i < IMAGE_PIXEL_SIZE * IMAGE_WIDTH ∧
            glyph_at y (i / IMAGE_PIXEL_SIZE) < d.length / 8 then
          (pixel_color (glyph_at y (i / IMAGE_PIXEL_SIZE))
            (((d.getD (8 * glyph_at y (i / IMAGE_PIXEL_SIZE) + y % 8) 0 % 256)
              * 2 ^ (i / 4 % 8)) % 256))[i % 4]?
        else getByte rows y i := by
    intro y i
    rw [hb y i, hlenf]
    by_cases h : i < IMAGE_PIXEL_SIZE * IMAGE_WIDTH ∧
        glyph_at y (i / IMAGE_PIXEL_SIZE) < d.length / 8
    · rw [if_pos h, if_pos ⟨h.1, Nat.zero_le _, by omega⟩, Nat.sub_zero,
        painted_byte_file d y i h.1 h.2]
    · rw [if_neg h, if_neg (by omega)]
  have hrun : read_char_rom (file_reads d ++ rest) rows
      = read_char_rom_loop
          ((if d.length % 8 = 0 then [] else [some (d.drop (8 * (d.length / 8)))]) ++ rest)
          (d.length / 8) rows' [] := by
    unfold read_char_rom
    rw [file_reads_split, List.append_assoc]
    exact hs
  by_cases h8 : d.length % 8 = 0
  · have hr : rest = [] := by
      rcases hrest with h | h
      · exact absurd h8 h
      · exact h
    subst hr
    rw [if_pos h8] at hrun
    refine ⟨⟨d.length / 8, rows', [], []⟩, ?_, rfl, ?_, rfl, hd, hbytes⟩
    · rw [hrun]
      rfl
    · rw [if_pos h8]
  · rw [if_neg h8] at hrun
    have hl : (d.drop (8 * (d.length / 8))).length = d.length % 8 := by
      rw [List.length_drop]
      omega
    refine ⟨⟨d.length / 8, rows', [Msg.warning_not_processed ((d.length % 8 : Nat) : Int)],
      rest⟩, ?_, rfl, ?_, rfl, hd, hbytes⟩
    · rw [hrun, List.singleton_append,
        read_loop_short _ _ _ _ _ (by rw [hl]; exact h8) (by rw [hl]; unfold CHAR_SIZE; omega), hl]
      rfl
    · rw [if_neg h8]

/-! ## Pixels and colours -/

theorem pixel_of_bytes {rows : Buffer} {y x : Nat} {px : List Nat} (hc : px.length = 4)
    (h : ∀ k, k < 4 → getByte rows y (4 * x + k) = px[k]?) : pixel rows y x = some px := by
  unfold pixel getByte at *
  cases hrow : rows[y]? with
  | none =>
    have h0 := h 0 (by decide)
    rw [hrow] at h0
    have : px[0]? ≠ none := by
      rw [ne_eq, List.getElem?_eq_none_iff]
      omega
    exact absurd h0.symm this
  | some r =>
    simp only [hrow] at h
    have h3 := h 3 (by decide)
    have hlt : 4 * x + 3 < r.length := by
      by_contra hge
      rw [List.getElem?_eq_none_iff.mpr (by omega)] at h3
      have : px[3]? ≠ none := by
        rw [ne_eq, List.getElem?_eq_none_iff]
        omega
      exact this h3.symm
    have hfit : IMAGE_PIXEL_SIZE * x + IMAGE_PIXEL_SIZE ≤ r.length := by
      unfold IMAGE_PIXEL_SIZE
      omega
    simp only [if_pos hfit]
    congr 1
    apply List.ext_getElem?
    intro k
    unfold IMAGE_PIXEL_SIZE
    by_cases hk : k < 4
    · rw [List.getElem?_take_of_lt hk, List.getElem?_drop]
      exact h k hk
    · rw [List.getElem?_eq_none_iff.mpr (by rw [List.length_take]; omega),
        List.getElem?_eq_none_iff.mpr (by omega)]

theorem background_color_eq (g : Nat) :
    background_color g = if (g + g / 16) % 2 = 0 then BRIGHT_MAGENTA else MAGENTA := by
  unfold background_color CHARS_PER_IMAGE_ROW BRIGHT_MAGENTA MAGENTA
  by_cases h : (g + g / 16) % 2 = 0
  · rw [if_neg (by simpa using h), if_pos h]
  · rw [if_pos h, if_neg h]
    rfl

theorem pixel_color_eq (g cd : Nat) :
    pixel_color g cd = if cd &&& 0x80 ≠ 0 then WHITE else background_color g := by
  unfold pixel_color
  by_cases h : cd &&& 0x80 ≠ 0
  · rw [if_pos h, if_pos h, background_color_eq]
    split <;> rfl
  · rw [if_neg h, if_neg h]

theorem pixel_color_shifted (g b c : Nat) (hc : c < 8) :
    pixel_color g (((b % 256) * 2 ^ c) % 256)
      = if b.testBit (7 - c) = true then WHITE else background_color g := by
  rw [pixel_color_eq]
  by_cases h : b.testBit (7 - c) = true
  · rw [if_pos h, if_pos ((high_bit_after_shifts b c hc).mpr h)]
  · rw [if_neg h, if_neg (fun hh => h ((high_bit_after_shifts b c hc).mp hh))]

/-! ## The allocated bitmap -/

theorem alloc_rows_dims (h : Nat) :
    (alloc_rows h).map List.length = List.replicate h (IMAGE_PIXEL_SIZE * IMAGE_WIDTH) := by
  unfold alloc_rows
  rw [List.map_replicate, List.length_replicate]

theorem Fits_alloc_rows (h : Nat) : Fits (alloc_rows h) h := by
  intro y hy
  refine ⟨IMAGE_PIXEL_SIZE * IMAGE_WIDTH, ?_, Nat.le_refl _⟩
  rw [alloc_rows_dims, List.getElem?_replicate, if_pos hy]

theorem Fits_of_length {rows : Buffer} {h : Nat} (hl : h ≤ rows.length)
    (hw : ∀ r ∈ rows, IMAGE_PIXEL_SIZE * IMAGE_WIDTH ≤ r.length) : Fits rows h := by
  intro y hy
  have hy' : y < rows.length := Nat.lt_of_lt_of_le hy hl
  refine ⟨(rows[y]).length, ?_, hw _ (List.getElem_mem hy')⟩
  rw [List.getElem?_map, List.getElem?_eq_getElem hy']
  rfl

/-- The pixels of a pass over a regular file: every pixel of a complete glyph
holds the colour computed from its row byte. -/
theorem read_char_rom_file_pixel (d : List Nat) (rows : Buffer) (res : RomResult)
    (hbytes : ∀ y i, getByte res.row_data y i =
        if i < IMAGE_PIXEL_SIZE * IMAGE_WIDTH ∧
            glyph_at y (i / IMAGE_PIXEL_SIZE) < d.length / 8 then
          (pixel_color (glyph_at y (i / IMAGE_PIXEL_SIZE))
            (((d.getD (8 * glyph_at y (i / IMAGE_PIXEL_SIZE) + y % 8) 0 % 256)
              * 2 ^ (i / 4 % 8)) % 256))[i % 4]?
        else getByte rows y i)
    (y x : Nat) (hx : x < IMAGE_WIDTH) (hg : glyph_at y x < d.length / 8) :
    pixel res.row_data y x
      = some (if (d.getD (8 * glyph_at y x + y % 8) 0).testBit (7 - x % 8) = true then WHITE
          else background_color (glyph_at y x)) := by
  rw [← pixel_color_shifted _ _ _ (Nat.mod_lt x (by decide))]
  apply pixel_of_bytes (pixel_color_length _ _)
  intro k hk
  unfold IMAGE_WIDTH at hx
  have e1 : (4 * x + k) / IMAGE_PIXEL_SIZE = x := by unfold IMAGE_PIXEL_SIZE; omega
  have e2 : (4 * x + k) / 4 % 8 = x % 8 := by omega
  have e3 : (4 * x + k) % 4 = k := by omega
  have e4 : 4 * x + k < IMAGE_PIXEL_SIZE * IMAGE_WIDTH := by
    unfold IMAGE_PIXEL_SIZE IMAGE_WIDTH; omega
  rw [hbytes y (4 * x + k), e1, if_pos ⟨e4, hg⟩, e2, e3]

/-! ## `size_t` values -/

theorem to_size_t_natCast (n : Nat) (h : n < SIZE_MOD) : to_size_t (n : Int) = n := by
  unfold to_size_t
  rw [← Int.natCast_mod, Int.toNat_natCast, Nat.mod_eq_of_lt h]

theorem get_height_eq (L : Nat) (hL : L < SIZE_MOD) : get_height L = 8 * (L / 128) := by
  unfold get_height CHAR_SIZE IMAGE_WIDTH
  apply Nat.mod_eq_of_lt
  unfold SIZE_MOD at *
  omega

/-! ## The allocation of `main` -/

/-- For a height of `2 ^ 32` or more the loop condition holds at every value
of the counter: no number of steps ends the loop. -/
theorem alloc_loop_never_ends (malloc_ok : Bool) (calloc_null : List Nat) (height : Nat)
    (hbig : UINT_MOD ≤ height) :
    ∀ (fuel i : Nat) (rows : Buffer), i < UINT_MOD →
      alloc_loop malloc_ok calloc_null height fuel i rows = none := by
  intro fuel
  induction fuel with
  | zero =>
    intro i rows _
    rfl
  | succ fuel ih =>
    intro i rows hi
    have hlt : i < height := Nat.lt_of_lt_of_le hi hbig
    rw [alloc_loop, if_pos hlt]
    cases malloc_ok with
    | false => rfl
    | true =>
      simp only [if_true]
      exact ih _ _ (Nat.mod_lt _ (by decide))

theorem allocate_never_ends (malloc_ok : Bool) (calloc_null : List Nat) (height : Nat)
    (hbig : UINT_MOD ≤ height) : allocate malloc_ok calloc_null height = none :=
  alloc_loop_never_ends malloc_ok calloc_null height hbig _ _ _ (by decide)

/-- Below `2 ^ 32` rows, with a block of row pointers, the loop ends: it keeps
the number of rows, sets every row from `i` on and leaves the rows before. -/
theorem alloc_loop_ends (calloc_null : List Nat) (height : Nat) (hsmall : height < UINT_MOD) :
    ∀ (k fuel i : Nat) (rows : Buffer), height - i = k → i ≤ height → k < fuel →
      rows.length = height →
      ∃ rows', alloc_loop true calloc_null height fuel i rows = some rows' ∧
        rows'.length = height ∧
        ∀ j, rows'[j]? =
          if i ≤ j ∧ j < height then
            some (if j ∈ calloc_null then []
              else List.replicate (IMAGE_PIXEL_SIZE * IMAGE_WIDTH) 0)
          else rows[j]? := by
  intro k
  induction k with
  | zero =>
    intro fuel i rows hk hi hfuel hlen
    cases fuel with
    | zero => omega
    | succ fuel =>
      have hnot : ¬ i < height := by omega
      refine ⟨rows, ?_, hlen, ?_⟩
      · rw [alloc_loop, if_neg hnot]
      · intro j
        have h5 : ¬ (i ≤ j ∧ j < height) := by omega
        rw [if_neg h5]
  | succ k ih =>
    intro fuel i rows hk hi hfuel hlen
    cases fuel with
    | zero => omega
    | succ fuel =>
      have hlt : i < height := by omega
      have hstep : (i + 1) % UINT_MOD = i + 1 := Nat.mod_eq_of_lt (by omega)
      obtain ⟨rows', hrun, hl, hget⟩ := ih fuel (i + 1)
        (rows.set i (if i ∈ calloc_null then []
          else List.replicate (IMAGE_PIXEL_SIZE * IMAGE_WIDTH) 0))
        (by omega) (by omega) (by omega) (by rw [List.length_set]; exact hlen)
      refine ⟨rows', ?_, hl, ?_⟩
      · rw [alloc_loop, if_pos hlt]
        simp only [if_true, hstep]
        exact hrun
      · intro j
        rw [hget j, List.getElem?_set]
        by_cases h1 : i + 1 ≤ j ∧ j < height
        · have h1' : i ≤ j ∧ j < height := ⟨by omega, h1.2⟩
          rw [if_pos h1, if_pos h1']
        · rw [if_neg h1]
          by_cases h2 : i = j
          · subst h2
            have h3 : i < rows.length := by omega
            have h4 : i ≤ i ∧ i < height := ⟨Nat.le_refl _, hlt⟩
            rw [if_pos rfl, if_pos h3, if_pos h4]
          · have h5 : ¬ (i ≤ j ∧ j < height) := by omega
            rw [if_neg h2, if_neg h5]

/-- When the loop can end and every allocation succeeds, `main` gets the
zero-filled bitmap of `height` rows. -/
theorem allocate_ok (height : Nat) (hsmall : height < UINT_MOD) :
    allocate true [] height = some (alloc_rows height) := by
  obtain ⟨rows', hrun, hl, hget⟩ :=
    alloc_loop_ends [] height hsmall height (UINT_MOD + 1) 0 (List.replicate height [])
      (Nat.sub_zero _) (Nat.zero_le _) (by omega) (List.length_replicate _ _)
  unfold allocate
  rw [hrun]
  congr 1
  apply List.ext_getElem?
  intro j
  rw [hget j]
  unfold alloc_rows
  by_cases hj : j < height
  · have h1 : 0 ≤ j ∧ j < height := ⟨Nat.zero_le _, hj⟩
    rw [if_pos h1, List.getElem?_replicate, if_pos hj]
    simp
  · have h1 : ¬ (0 ≤ j ∧ j < height) := by omega
    rw [if_neg h1, List.getElem?_replicate, if_neg hj, List.getElem?_replicate, if_neg hj]

/-- A height of 0 needs no allocation: the loop body is not entered. -/
theorem allocate_zero (malloc_ok : Bool) (calloc_null : List Nat) :
    allocate malloc_ok calloc_null 0 = some [] := by
  unfold allocate UINT_MOD
  rw [alloc_loop, if_neg (Nat.lt_irrefl 0)]
  rfl

/-! ## Runs of `main` that reach the rasterizer -/

/-- A run whose argument count is accepted, whose `open` and `lseek` calls
succeed and whose allocation ends with the bitmap `rows` is decided by the
pass of `read_char_rom` over `rows` and the count comparison. -/
theorem main_reached (env : MainEnv) (rows : Buffer) (hargc : env.argc = 3 ∨ env.argc = 4)
    (hopen : env.open_result ≠ -1) (hend : env.lseek_end ≠ -1)
    (hset : to_size_t env.lseek_set = offset_of env)
    (halloc : allocate env.malloc_ok env.calloc_null (get_height (usable_bytes env))
      = some rows) :
    main env =
      match read_char_rom env.reads rows with
      | none => none
      | some res =>
        if res.chars_processed ≠ chars_expected env then
          some ⟨1, [Msg.reading_character_rom] ++ res.output
            ++ [Msg.error_read_expected res.chars_processed (chars_expected env)], []⟩
        else
          some ⟨0, [Msg.reading_character_rom] ++ res.output ++ [Msg.writing_output_image]
            ++ (write_image env.png res.row_data IMAGE_WIDTH
                (get_height (usable_bytes env))).2
            ++ (if (write_image env.png res.row_data IMAGE_WIDTH
                  (get_height (usable_bytes env))).1 ≠ 0
                then [Msg.error_writing_file] else []),
            [(res.row_data, IMAGE_WIDTH, get_height (usable_bytes env))]⟩ := by
  have h1 : ¬ (env.argc ≠ 3 ∧ env.argc ≠ 4) := by
    rintro ⟨h3, h4⟩
    rcases hargc with h | h
    · exact h3 h
    · exact h4 h
  have h2 : ¬ (to_size_t env.lseek_set ≠ if env.argc = 4 then env.offset_arg else 0) := by
    intro h
    exact h hset
  have h3 : allocate env.malloc_ok env.calloc_null
      (get_height (to_size_t (env.lseek_end
        - ((if env.argc = 4 then env.offset_arg else 0 : Nat) : Int)))) = some rows := halloc
  unfold main
  rw [if_neg h1, if_neg hopen, if_neg hend]
  simp only [if_neg h2, h3]
  rfl

/-- A run that passes the argument, `open` and `lseek` checks and whose
allocation does not end has no result. -/
theorem main_not_allocated (env : MainEnv) (hargc : env.argc = 3 ∨ env.argc = 4)
    (hopen : env.open_result ≠ -1) (hend : env.lseek_end ≠ -1)
    (hset : to_size_t env.lseek_set = offset_of env)
    (halloc : allocate env.malloc_ok env.calloc_null (get_height (usable_bytes env)) = none) :
    main env = none := by
  have h1 : ¬ (env.argc ≠ 3 ∧ env.argc ≠ 4) := by
    rintro ⟨h3, h4⟩
    rcases hargc with h | h
    · exact h3 h
    · exact h4 h
  have h2 : ¬ (to_size_t env.lseek_set ≠ if env.argc = 4 then env.offset_arg else 0) := by
    intro h
    exact h hset
  have h3 : allocate env.malloc_ok env.calloc_null
      (get_height (to_size_t (env.lseek_end
        - ((if env.argc = 4 then env.offset_arg else 0 : Nat) : Int)))) = none := halloc
  unfold main
  rw [if_neg h1, if_neg hopen, if_neg hend]
  simp only [if_neg h2, h3]

/-- An offset beyond the end of the file: the height computed from the wrapped
byte count is `2 ^ 60 - 8`, the allocation does not end in a bitmap and the run
has no result. -/
theorem main_offset_past_end :
    get_height (usable_bytes offset_past_end_env) = 2 ^ 60 - 8 ∧
    main offset_past_end_env = none := by
  have hh : get_height (usable_bytes offset_past_end_env) = 2 ^ 60 - 8 := by decide
  refine ⟨hh, ?_⟩
  apply main_not_allocated offset_past_end_env (Or.inr rfl) (by decide) (by decide) (by decide)
  rw [hh]
  exact allocate_never_ends _ _ _ (by decide)

/-- Every run of `main` that ends calls `write_image` at most once, and only
with the width `IMAGE_WIDTH` and the height computed from the usable bytes. -/
theorem main_calls (env : MainEnv) (r : MainResult) (hrun : main env = some r) :
    r.write_image_calls = [] ∨
    ∃ buf, r.write_image_calls = [(buf, IMAGE_WIDTH, get_height (usable_bytes env))] := by
  by_cases hargc : env.argc ≠ 3 ∧ env.argc ≠ 4
  · simp only [main, if_pos hargc, Option.some.injEq] at hrun
    left
    rw [← hrun]
  · by_cases hopen : env.open_result = -1
    · simp only [main, if_neg hargc, if_pos hopen, Option.some.injEq] at hrun
      left
      rw [← hrun]
    · by_cases hend : env.lseek_end = -1
      · simp only [main, if_neg hargc, if_neg hopen, if_pos hend, Option.some.injEq] at hrun
        left
        rw [← hrun]
      · by_cases hset : to_size_t env.lseek_set = offset_of env
        · have hargc' : env.argc = 3 ∨ env.argc = 4 := by
            by_contra hcon
            exact hargc ⟨fun h => hcon (Or.inl h), fun h => hcon (Or.inr h)⟩
          cases halloc : allocate env.malloc_ok env.calloc_null
              (get_height (usable_bytes env)) with
          | none =>
            rw [main_not_allocated env hargc' hopen hend hset halloc] at hrun
            cases hrun
          | some rows =>
            rw [main_reached env rows hargc' hopen hend hset halloc] at hrun
            cases hres : read_char_rom env.reads rows with
            | none =>
              rw [hres] at hrun
              cases hrun
            | some res =>
              rw [hres] at hrun
              by_cases hcount : res.chars_processed ≠ chars_expected env
              · simp only [if_pos hcount, Option.some.injEq] at hrun
                left
                rw [← hrun]
              · simp only [if_neg hcount, Option.some.injEq] at hrun
                right
                exact ⟨res.row_data, by rw [← hrun]⟩
        · have hset' : to_size_t env.lseek_set ≠ if env.argc = 4 then env.offset_arg else 0 :=
            hset
          simp only [main, if_neg hargc, if_neg hopen, if_neg hend, if_pos hset',
            Option.some.injEq] at hrun
          left
          rw [← hrun]

theorem get_height_dvd (L : Nat) : 8 ∣ get_height L := by
  unfold get_height CHAR_SIZE SIZE_MOD
  omega

theorem usable_bytes_file_env (d : List Nat) (png : PngEnv) (hL : d.length < SIZE_MOD) :
    usable_bytes (file_env d png) = d.length := by
  unfold usable_bytes offset_of file_env
  simp only [Nat.reduceEqDiff, if_false, Int.natCast_zero, Int.sub_zero]
  exact to_size_t_natCast _ hL

/-! ## Runs of `main` on a regular file -/

theorem main_file_env (d : List Nat) (png : PngEnv) (hL : d.length < SIZE_MOD)
    (hh : get_height d.length < UINT_MOD) :
    main (file_env d png) =
      match read_char_rom (file_reads d) (alloc_rows (get_height d.length)) with
      | none => none
      | some res =>
        if res.chars_processed ≠ ((get_height d.length / 8) * (IMAGE_WIDTH / 8)) % SIZE_MOD then
          some ⟨1, [Msg.reading_character_rom] ++ res.output
            ++ [Msg.error_read_expected res.chars_processed
                (((get_height d.length / 8) * (IMAGE_WIDTH / 8)) % SIZE_MOD)], []⟩
        else
          some ⟨0, [Msg.reading_character_rom] ++ res.output ++ [Msg.writing_output_image]
            ++ (write_image png res.row_data IMAGE_WIDTH (get_height d.length)).2
            ++ (if (write_image png res.row_data IMAGE_WIDTH (get_height d.length)).1 ≠ 0
                then [Msg.error_writing_file] else []),
            [(res.row_data, IMAGE_WIDTH, get_height d.length)]⟩ := by
  have hu := usable_bytes_file_env d png hL
  have halloc : allocate (file_env d png).malloc_ok (file_env d png).calloc_null
      (get_height (usable_bytes (file_env d png))) = some (alloc_rows (get_height d.length)) := by
    rw [hu]
    exact allocate_ok _ hh
  have hm := main_reached (file_env d png) _ (Or.inl rfl)
    (by unfold file_env; simp only; decide)
    (by unfold file_env; simp only; omega)
    (by unfold file_env offset_of; simp only; decide) halloc
  unfold chars_expected at hm
  rw [hu] at hm
  exact hm

/-- A file whose height does not fit the counter of the allocation loop: the
run of `main` does not get past the allocation. -/
theorem main_file_env_never_ends (d : List Nat) (png : PngEnv) (hL : d.length < SIZE_MOD)
    (hh : UINT_MOD ≤ get_height d.length) : main (file_env d png) = none := by
  apply main_not_allocated (file_env d png) (Or.inl rfl)
    (by unfold file_env; simp only; decide)
    (by unfold file_env; simp only; omega)
    (by unfold file_env offset_of; simp only; decide)
  rw [usable_bytes_file_env d png hL]
  exact allocate_never_ends _ _ _ hh

/-! ## One glyph -/

theorem placement_eq (g r c : Nat) :
    placement g r c = (out_row g r, (g % 16) * 8 + c) := by
  unfold placement out_col CHAR_SIZE CHARS_PER_IMAGE_ROW IMAGE_PIXEL_SIZE
  rw [Prod.mk.injEq]
  exact ⟨rfl, by omega⟩

/-- Painting one glyph into a bitmap that holds its block: the pass succeeds,
the row lengths are kept, and cell `(r, c)` of the block holds white when bit
`7 - c` of row byte `r` is set and the background colour of the glyph if not. -/
theorem paint_char_pixel (g : Nat) (bs : List Nat) (rows : Buffer)
    (hfit : Fits rows (out_row g CHAR_SIZE)) :
    ∃ rows', paint_char g bs rows = some rows' ∧
      rows'.map List.length = rows.map List.length ∧
      ∀ r c, r < 8 → c < 8 →
        pixel rows' (placement g r c).1 (placement g r c).2
          = some (if (bs.getD r 0).testBit (7 - c) = true then WHITE
              else background_color g) := by
  obtain ⟨rows', hrun, hdims, hbytes⟩ := paint_char_of_Fits g bs rows hfit
  refine ⟨rows', hrun, hdims, ?_⟩
  intro r c hr hc
  rw [placement_eq, ← pixel_color_shifted _ _ _ hc]
  apply pixel_of_bytes (pixel_color_length _ _)
  intro k hk
  have hglt := Nat.mod_lt g (show 0 < 16 by decide)
  have hg : glyph_at (out_row g r) ((4 * (g % 16 * 8 + c) + k) / IMAGE_PIXEL_SIZE) = g := by
    unfold glyph_at out_row CHAR_SIZE CHARS_PER_IMAGE_ROW IMAGE_PIXEL_SIZE
    omega
  have hlt : 4 * (g % 16 * 8 + c) + k < IMAGE_PIXEL_SIZE * IMAGE_WIDTH := by
    unfold IMAGE_PIXEL_SIZE IMAGE_WIDTH
    omega
  rw [hbytes, if_pos ⟨hlt, hg⟩]
  unfold painted_byte
  have e1 : out_row g r - out_row g 0 = r := by
    unfold out_row
    omega
  have e2 : (4 * (g % 16 * 8 + c) + k - out_col g 0) / 4 = c := by
    unfold out_col CHAR_SIZE CHARS_PER_IMAGE_ROW IMAGE_PIXEL_SIZE
    omega
  have e3 : (4 * (g % 16 * 8 + c) + k - out_col g 0) % 4 = k := by
    unfold out_col CHAR_SIZE CHARS_PER_IMAGE_ROW IMAGE_PIXEL_SIZE
    omega
  rw [e1, e2, e3]

theorem background_ne_white (g : Nat) : background_color g ≠ WHITE := by
  rw [background_color_eq]
  split <;> decide

set_option maxRecDepth 100000 in
theorem bit_patterns :
    ∀ c < 8, (Nat.testBit 0xFF (7 - c) = true) ∧ (Nat.testBit 0x00 (7 - c) = false) ∧
      (Nat.testBit 0x80 (7 - c) = true ↔ c = 0) ∧ (Nat.testBit 0x01 (7 - c) = true ↔ c = 7) := by
  decide

/-! ## Records beyond the last whole grid row -/

theorem paint_char_overrun (g : Nat) (bs : List Nat) (rows : Buffer)
    (h : rows.length ≤ out_row g 0) : paint_char g bs rows = none := by
  have hnone : rows[out_row g 0]? = none := List.getElem?_eq_none_iff.mpr h
  unfold paint_char CHAR_SIZE
  rw [row_loop]
  unfold CHAR_SIZE
  rw [col_loop]
  unfold store_pixel
  rw [hnone]

/-- A file whose length leaves 8 bytes or more after the last whole grid row
makes `read_char_rom` store below the last row that `main` allocates. -/
theorem read_char_rom_overrun (d : List Nat) (hL : d.length < SIZE_MOD)
    (h : 8 ≤ d.length % 128) :
    read_char_rom (file_reads d) (alloc_rows (get_height d.length)) = none := by
  have hh : get_height d.length = 8 * (d.length / 128) := get_height_eq _ hL
  rw [hh]
  generalize hF : ((List.range (d.length / 8)).map fun k => (d.drop (8 * k)).take 8) = F
  have hFlen : F.length = d.length / 8 := by
    rw [← hF]
    simp
  have hF8 : ∀ bs ∈ F, bs.length = CHAR_SIZE := by
    rw [← hF]
    exact full_records_length d
  have hsplit : F = F.take (16 * (d.length / 128)) ++ F.drop (16 * (d.length / 128)) :=
    (List.take_append_drop _ _).symm
  have htl : (F.take (16 * (d.length / 128))).length = 16 * (d.length / 128) := by
    rw [List.length_take, hFlen]
    omega
  cases hdrop : F.drop (16 * (d.length / 128)) with
  | nil =>
    have := congrArg List.length hdrop
    rw [List.length_drop, hFlen, List.length_nil] at this
    omega
  | cons bs others =>
    have hbs : bs.length = CHAR_SIZE := by
      apply hF8
      have hmem : bs ∈ F.drop (16 * (d.length / 128)) := by
        rw [hdrop]
        exact List.mem_cons_self _ _
      exact List.mem_of_mem_drop hmem
    obtain ⟨rows', hs, hdims, _⟩ :=
      read_loop_full (some bs :: (others.map some
          ++ (if d.length % 8 = 0 then [] else [some (d.drop (8 * (d.length / 8)))])))
        (F.take (16 * (d.length / 128))) 0 (alloc_rows (8 * (d.length / 128))) []
        (fun b hb => hF8 b (List.mem_of_mem_take hb))
        (by
          intro g _ hg
          apply Fits_mono _ (Fits_alloc_rows (8 * (d.length / 128)))
          rw [htl] at hg
          unfold out_row CHAR_SIZE CHARS_PER_IMAGE_ROW
          omega)
    have hrows : rows'.length = 8 * (d.length / 128) := by
      have := congrArg List.length hdims
      rw [List.length_map, List.length_map] at this
      rw [this]
      unfold alloc_rows
      rw [List.length_replicate]
    unfold read_char_rom
    rw [file_reads_split, hF, hsplit, hdrop, List.map_append, List.map_cons, List.append_assoc,
      List.cons_append]
    rw [hs, htl, read_loop_cons_full _ _ _ _ _ hbs, paint_char_overrun]
    rw [hrows]
    unfold out_row CHAR_SIZE CHARS_PER_IMAGE_ROW
    omega

/-! ## Runs whose length leaves fewer than 8 bytes after the last grid row -/

/-- A file of `128 * N + t` bytes with `t < 8` whose height `8 * N` is below
`2 ^ 32`: the allocation ends, the pass succeeds on the bitmap that `main`
allocates, counts `16 * N` glyphs, keeps the row lengths, paints every pixel of
the `8 * N` rows, and `main` goes on to `write_image`. -/
theorem main_short_tail (N t : Nat) (d : List Nat) (png : PngEnv)
    (hd : d.length = 128 * N + t) (ht : t < 8) (hL : d.length < SIZE_MOD)
    (hN : 8 * N < UINT_MOD) :
    get_height d.length = 8 * N ∧
    ((get_height d.length / 8) * (IMAGE_WIDTH / 8)) % SIZE_MOD = 16 * N ∧
    ∃ res, read_char_rom (file_reads d) (alloc_rows (get_height d.length)) = some res ∧
      res.chars_processed = 16 * N ∧
      res.output = (if t = 0 then [] else [Msg.warning_not_processed (t : Int)]) ∧
      res.row_data.map List.length = (alloc_rows (8 * N)).map List.length ∧
      (∀ y x, y < 8 * N → x < IMAGE_WIDTH →
        pixel res.row_data y x
          = some (if (d.getD (8 * glyph_at y x + y % 8) 0).testBit (7 - x % 8) = true then WHITE
              else background_color (glyph_at y x))) ∧
      main (file_env d png) =
        some ⟨0, [Msg.reading_character_rom] ++ res.output ++ [Msg.writing_output_image]
            ++ (write_image png res.row_data IMAGE_WIDTH (8 * N)).2
            ++ (if (write_image png res.row_data IMAGE_WIDTH (8 * N)).1 ≠ 0
                then [Msg.error_writing_file] else []),
          [(res.row_data, IMAGE_WIDTH, 8 * N)]⟩ := by
  have hh : get_height d.length = 8 * N := by
    rw [get_height_eq _ hL]
    omega
  have hexp : ((get_height d.length / 8) * (IMAGE_WIDTH / 8)) % SIZE_MOD = 16 * N := by
    rw [hh]
    unfold IMAGE_WIDTH
    have e : 8 * N / 8 * (128 / 8) = 16 * N := by omega
    rw [e]
    apply Nat.mod_eq_of_lt
    unfold SIZE_MOD at *
    omega
  refine ⟨hh, hexp, ?_⟩
  obtain ⟨res, hrun, hcount, hout, _, hdims, hbytes⟩ :=
    read_char_rom_file d (alloc_rows (get_height d.length)) [] (Or.inr rfl) (by
      intro g hg
      rw [hh]
      apply Fits_mono _ (Fits_alloc_rows (8 * N))
      unfold out_row CHAR_SIZE CHARS_PER_IMAGE_ROW
      omega)
  rw [List.append_nil] at hrun
  have hmod : d.length % 8 = t := by omega
  have hc : res.chars_processed = 16 * N := by
    rw [hcount]
    omega
  have hout' : res.output = (if t = 0 then [] else [Msg.warning_not_processed (t : Int)]) := by
    rw [hout, hmod]
  refine ⟨res, hrun, hc, hout', by rw [hdims, hh], ?_, ?_⟩
  · intro y x hy hx
    apply read_char_rom_file_pixel d _ res hbytes y x hx
    unfold IMAGE_WIDTH at hx
    unfold glyph_at CHAR_SIZE CHARS_PER_IMAGE_ROW
    omega
  · have hm := main_file_env d png hL (by rw [hh]; exact hN)
    rw [hrun] at hm
    simp only [hexp, hc, ne_eq, not_true_eq_false, if_false] at hm
    rw [hm, hh]

theorem write_image_no_count_error (png : PngEnv) (rows : Buffer) (w h p e : Nat) :
    Msg.error_read_expected p e ∉ (write_image png rows w h).2 := by
  unfold write_image
  split_ifs <;> simp

/-! # The claims -/

/-- C1: for an input `d` of exactly `128 * N` bytes (a `size_t` length), the
pass of `read_char_rom` over the zero-filled bitmap of
`get_height (128 * N) = 8 * N` rows makes no store out of range, and afterwards
the pixel in row `y < 8 * N`, column `x < 128` lies in the block of glyph
`g = (y / 8) * 16 + x / 8` and is white when bit `7 - x % 8` of byte
`d[8 * g + y % 8]` is set, else `FF 55 FF FF` when `g + g / 16` is even,
else `AA 00 AA FF`. -/
theorem C1_full_rows_rendered (N : Nat) (d : List Nat) (hd : d.length = 128 * N)
    (hN : 128 * N < SIZE_MOD) :
    get_height (128 * N) = 8 * N ∧
    ∃ res, read_char_rom (file_reads d) (alloc_rows (get_height (128 * N))) = some res ∧
      ∀ y x g, y < 8 * N → x < 128 → g = (y / 8) * 16 + x / 8 →
        placement g (y % 8) (x % 8) = (y, x) ∧
        ∃ b, d[8 * g + y % 8]? = some b ∧
          pixel res.row_data y x = some
            (if b.testBit (7 - x % 8) = true then [0xFF, 0xFF, 0xFF, 0xFF]
             else if (g + g / 16) % 2 = 0 then [0xFF, 0x55, 0xFF, 0xFF]
             else [0xAA, 0x00, 0xAA, 0xFF]) := by
  have hh : get_height (128 * N) = 8 * N := by
    rw [get_height_eq _ hN]
    omega
  refine ⟨hh, ?_⟩
  rw [hh]
  obtain ⟨res, hrun, _, _, _, _, hbytes⟩ :=
    read_char_rom_file d (alloc_rows (8 * N)) [] (Or.inr rfl) (by
      intro g hg
      apply Fits_mono _ (Fits_alloc_rows (8 * N))
      unfold out_row CHAR_SIZE CHARS_PER_IMAGE_ROW
      omega)
  rw [List.append_nil] at hrun
  refine ⟨res, hrun, ?_⟩
  intro y x g hy hx hg
  have hgat : glyph_at y x = g := by
    rw [hg]
    rfl
  have hglt : glyph_at y x < d.length / 8 := by
    rw [hgat]
    omega
  refine ⟨?_, ?_⟩
  · unfold placement out_row out_col CHAR_SIZE CHARS_PER_IMAGE_ROW IMAGE_PIXEL_SIZE
    rw [Prod.mk.injEq]
    omega
  · have hidx : 8 * g + y % 8 < d.length := by omega
    refine ⟨d[8 * g + y % 8], List.getElem?_eq_getElem hidx, ?_⟩
    have hp := read_char_rom_file_pixel d _ res hbytes y x hx hglt
    rw [hgat, List.getD_eq_getElem?_getD, List.getElem?_eq_getElem hidx, Option.getD_some,
      background_color_eq] at hp
    exact hp

/-- C1 at `N = 1` on 128 bytes `0x81`. -/
theorem C1_full_rows_rendered_witness :
    (List.replicate 128 0x81).length = 128 * 1 ∧ 128 * 1 < SIZE_MOD ∧
    (get_height (128 * 1) = 8 * 1 ∧
    ∃ res, read_char_rom (file_reads (List.replicate 128 0x81))
        (alloc_rows (get_height (128 * 1))) = some res ∧
      ∀ y x g, y < 8 * 1 → x < 128 → g = (y / 8) * 16 + x / 8 →
        placement g (y % 8) (x % 8) = (y, x) ∧
        ∃ b, (List.replicate 128 0x81)[8 * g + y % 8]? = some b ∧
          pixel res.row_data y x = some
            (if b.testBit (7 - x % 8) = true then [0xFF, 0xFF, 0xFF, 0xFF]
             else if (g + g / 16) % 2 = 0 then [0xFF, 0x55, 0xFF, 0xFF]
             else [0xAA, 0x00, 0xAA, 0xFF])) :=
  ⟨by simp, by decide,
    C1_full_rows_rendered 1 (List.replicate 128 0x81) (by simp) (by decide)⟩

/-- C2: for every `size_t` byte count `L`, `get_height L = 8 * (L / 128)`; it
is 0 below 128 (so at 0 and 127), and 8 at 128 and at 255. -/
theorem C2_get_height_formula (L : Nat) (hL : L < SIZE_MOD) :
    get_height L = 8 * (L / 128) ∧ (L < 128 → get_height L = 0) ∧
    get_height 0 = 0 ∧ get_height 127 = 0 ∧ get_height 128 = 8 ∧ get_height 255 = 8 := by
  refine ⟨get_height_eq L hL, ?_, by decide, by decide, by decide, by decide⟩
  intro h
  rw [get_height_eq L hL]
  omega

/-- C2 at `L = 255`. -/
theorem C2_get_height_formula_witness :
    255 < SIZE_MOD ∧
    (get_height 255 = 8 * (255 / 128) ∧ (255 < 128 → get_height 255 = 0) ∧
    get_height 0 = 0 ∧ get_height 127 = 0 ∧ get_height 128 = 8 ∧ get_height 255 = 8) :=
  ⟨by decide, C2_get_height_formula 255 (by decide)⟩

/-- C4 fails at an input of `2 ^ 36` bytes (`N = 2 ^ 29`, `t = 0`): the height
`8 * 2 ^ 29 = 2 ^ 32` is above every value of the `unsigned int` counter of the
allocation loop, so `i < height` holds at each step, no number of steps ends
the loop, `read_char_rom` is not reached and the run has no result. For every
input of `128 * N + t` bytes with `t < 8` whose height `8 * N` is below `2 ^ 32`
the run does what the claim says: height `8 * N`, `16 * N` glyphs, the warning
about `t` bytes when `t > 0`, processed count equal to the expected count, no
count mismatch printed and `write_image` reached. -/
theorem C4_allocation_counter_wraps :
    (List.replicate (2 ^ 36) 0).length = 128 * 2 ^ 29 + 0 ∧
    get_height (List.replicate (2 ^ 36) 0).length = 8 * 2 ^ 29 ∧
    UINT_MOD ≤ get_height (List.replicate (2 ^ 36) 0).length ∧
    (∀ fuel rows, alloc_loop true [] (get_height (List.replicate (2 ^ 36) 0).length)
      fuel 0 rows = none) ∧
    main (file_env (List.replicate (2 ^ 36) 0) ⟨true, true, true, true⟩) = none ∧
    (∀ (N t : Nat) (d : List Nat) (png : PngEnv),
      d.length = 128 * N + t → t < 8 → 8 * N < UINT_MOD →
      get_height d.length = 8 * N ∧
      ∃ res, read_char_rom (file_reads d) (alloc_rows (get_height d.length)) = some res ∧
        res.chars_processed = 16 * N ∧
        (0 < t → res.output = [Msg.warning_not_processed (t : Int)]) ∧
        (t = 0 → res.output = []) ∧
        res.chars_processed = ((get_height d.length / 8) * (IMAGE_WIDTH / 8)) % SIZE_MOD ∧
        ∃ r, main (file_env d png) = some r ∧
          (∀ p e, Msg.error_read_expected p e ∉ r.output) ∧
          r.write_image_calls = [(res.row_data, IMAGE_WIDTH, 8 * N)]) := by
  have hlen : (List.replicate (2 ^ 36) 0).length = 2 ^ 36 := List.length_replicate _ _
  have hsize : (List.replicate (2 ^ 36) 0).length < SIZE_MOD := by
    rw [hlen]
    decide
  have hh : get_height (List.replicate (2 ^ 36) 0).length = 8 * 2 ^ 29 := by
    rw [get_height_eq _ hsize, hlen]
    norm_num
  have hbig : UINT_MOD ≤ get_height (List.replicate (2 ^ 36) 0).length := by
    rw [hh]
    decide
  refine ⟨hlen, hh, hbig, ?_, main_file_env_never_ends _ _ hsize hbig, ?_⟩
  · intro fuel rows
    exact alloc_loop_never_ends true [] _ hbig fuel 0 rows (by decide)
  · intro N t d png hd ht hN
    have hL : d.length < SIZE_MOD := by
      unfold UINT_MOD at hN
      unfold SIZE_MOD
      omega
    obtain ⟨hh, hexp, res, hrun, hc, hout, _, _, hmain⟩ :=
      main_short_tail N t d png hd ht hL hN
    have hout0 : t = 0 → res.output = [] := by
      intro h0
      rw [hout, if_pos h0]
    have hout1 : 0 < t → res.output = [Msg.warning_not_processed (t : Int)] := by
      intro h0
      rw [hout, if_neg (by omega)]
    refine ⟨hh, res, hrun, hc, hout1, hout0, by rw [hexp, hc], _, hmain, ?_, rfl⟩
    intro p e hmem
    have hw := write_image_no_count_error png res.row_data IMAGE_WIDTH (8 * N) p e
    by_cases h0 : t = 0 <;>
      by_cases h1 : (write_image png res.row_data IMAGE_WIDTH (8 * N)).1 = 0 <;>
      simp [hout, h0, h1, hw] at hmem

/-- C5: when `read_char_rom` paints glyph `g` from a record whose row `r` is
the byte `b`, the pixel it stores for cell `(r, c)` is white exactly when bit
`7 - c` of `b` is set, whatever the parity of `g`, and is otherwise the
background tone selected by the parity; so `b = 0xFF` gives white in all eight
columns, `b = 0x00` gives the background in all eight, `b = 0x80` gives white
in column 0 only and `b = 0x01` in column 7 only. -/
theorem C5_foreground_follows_bits (g r c b : Nat) (bs : List Nat) (rows : Buffer)
    (hr : r < 8) (hc : c < 8) (hb : bs[r]? = some b)
    (hfit : Fits rows (out_row g CHAR_SIZE)) :
    ∃ rows' px, paint_char g bs rows = some rows' ∧
      pixel rows' (placement g r c).1 (placement g r c).2 = some px ∧
      (px = [0xFF, 0xFF, 0xFF, 0xFF] ↔ b.testBit (7 - c) = true) ∧
      (b.testBit (7 - c) = false →
        px = if (g + g / 16) % 2 = 0 then [0xFF, 0x55, 0xFF, 0xFF]
          else [0xAA, 0x00, 0xAA, 0xFF]) ∧
      (b = 0xFF → px = [0xFF, 0xFF, 0xFF, 0xFF]) ∧
      (b = 0x00 → px = if (g + g / 16) % 2 = 0 then [0xFF, 0x55, 0xFF, 0xFF]
          else [0xAA, 0x00, 0xAA, 0xFF]) ∧
      (b = 0x80 → (px = [0xFF, 0xFF, 0xFF, 0xFF] ↔ c = 0)) ∧
      (b = 0x01 → (px = [0xFF, 0xFF, 0xFF, 0xFF] ↔ c = 7)) := by
  obtain ⟨rows', hrun, _, hpix⟩ := paint_char_pixel g bs rows hfit
  have hbd : bs.getD r 0 = b := by
    rw [List.getD_eq_getElem?_getD, hb, Option.getD_some]
  have hp := hpix r c hr hc
  rw [hbd] at hp
  have hbg : background_color g
      = if (g + g / 16) % 2 = 0 then [0xFF, 0x55, 0xFF, 0xFF] else [0xAA, 0x00, 0xAA, 0xFF] :=
    background_color_eq g
  have hiff : (if b.testBit (7 - c) = true then WHITE else background_color g)
      = [0xFF, 0xFF, 0xFF, 0xFF] ↔ b.testBit (7 - c) = true := by
    by_cases h : b.testBit (7 - c) = true
    · rw [if_pos h]
      exact ⟨fun _ => h, fun _ => rfl⟩
    · rw [if_neg h]
      exact ⟨fun hw => absurd hw (background_ne_white g), fun hh => absurd hh h⟩
  have hoff : b.testBit (7 - c) = false →
      (if b.testBit (7 - c) = true then WHITE else background_color g)
        = if (g + g / 16) % 2 = 0 then [0xFF, 0x55, 0xFF, 0xFF]
          else [0xAA, 0x00, 0xAA, 0xFF] := by
    intro h
    rw [if_neg (by rw [h]; decide), hbg]
  obtain ⟨p1, p2, p3, p4⟩ := bit_patterns c hc
  refine ⟨rows', _, hrun, hp, hiff, hoff, ?_, ?_, ?_, ?_⟩
  · intro h
    subst h
    exact hiff.mpr p1
  · intro h
    subst h
    exact hoff p2
  · intro h
    subst h
    exact hiff.trans p3
  · intro h
    subst h
    exact hiff.trans p4

/-- C5 on glyph 17, row 2, column 7 of a record whose row 2 is `0x01`. -/
theorem C5_foreground_follows_bits_witness :
    2 < 8 ∧ 7 < 8 ∧ ([0, 0, 0x01, 0, 0, 0, 0, 0] : List Nat)[2]? = some 0x01 ∧
    Fits (alloc_rows 16) (out_row 17 CHAR_SIZE) ∧
    ∃ rows' px, paint_char 17 [0, 0, 0x01, 0, 0, 0, 0, 0] (alloc_rows 16) = some rows' ∧
      pixel rows' (placement 17 2 7).1 (placement 17 2 7).2 = some px ∧
      (px = [0xFF, 0xFF, 0xFF, 0xFF] ↔ Nat.testBit 0x01 (7 - 7) = true) ∧
      (Nat.testBit 0x01 (7 - 7) = false →
        px = if (17 + 17 / 16) % 2 = 0 then [0xFF, 0x55, 0xFF, 0xFF]
          else [0xAA, 0x00, 0xAA, 0xFF]) ∧
      (0x01 = 0xFF → px = [0xFF, 0xFF, 0xFF, 0xFF]) ∧
      (0x01 = 0x00 → px = if (17 + 17 / 16) % 2 = 0 then [0xFF, 0x55, 0xFF, 0xFF]
          else [0xAA, 0x00, 0xAA, 0xFF]) ∧
      (0x01 = 0x80 → (px = [0xFF, 0xFF, 0xFF, 0xFF] ↔ 7 = 0)) ∧
      (0x01 = 0x01 → (px = [0xFF, 0xFF, 0xFF, 0xFF] ↔ 7 = 7)) :=
  ⟨by decide, by decide, by decide, Fits_alloc_rows 16,
    C5_foreground_follows_bits 17 2 7 0x01 [0, 0, 0x01, 0, 0, 0, 0, 0] (alloc_rows 16)
      (by decide) (by decide) (by decide) (Fits_alloc_rows 16)⟩

/-- C6: the background tone of glyph `g` is `FF 55 FF` (alpha `FF`) when
`(g + g / 16) % 2 = 0` and `AA 00 AA` when it is 1; it is the colour stored for
every pixel whose bit is clear; glyph 0 gets the primary tone and glyph 16 a
different one. -/
theorem C6_background_parity (g : Nat) :
    ((g + g / 16) % 2 = 0 → background_color g = [0xFF, 0x55, 0xFF, 0xFF]) ∧
    ((g + g / 16) % 2 = 1 → background_color g = [0xAA, 0x00, 0xAA, 0xFF]) ∧
    (∀ col_data, col_data &&& 0x80 = 0 → pixel_color g col_data = background_color g) ∧
    background_color 0 = [0xFF, 0x55, 0xFF, 0xFF] ∧
    background_color 16 ≠ background_color 0 := by
  refine ⟨?_, ?_, ?_, by decide, by decide⟩
  · intro h
    rw [background_color_eq, if_pos h]
    rfl
  · intro h
    rw [background_color_eq, if_neg (by omega)]
    rfl
  · intro cd h
    rw [pixel_color_eq, if_neg (by simp [h])]

/-- C7 fails at a 136-byte input: `main` allocates `get_height 136 = 8` rows,
the reads deliver 17 complete records, and the block of glyph 16 starts at
bitmap row `out_row 16 0 = 8`, which is not a row of the bitmap; the pass of
`read_char_rom` stores out of range, and so does the run of `main`. -/
theorem C7_store_below_last_row :
    get_height 136 = 8 ∧
    (alloc_rows (get_height 136)).length = 8 ∧
    (file_reads (List.replicate 136 0)).length = 17 ∧
    (∀ r ∈ file_reads (List.replicate 136 0), bytes_read r = 8) ∧
    out_row 16 0 = 8 ∧
    paint_char 16 (List.replicate 8 0) (alloc_rows (get_height 136)) = none ∧
    read_char_rom (file_reads (List.replicate 136 0)) (alloc_rows (get_height 136)) = none ∧
    main (file_env (List.replicate 136 0) ⟨true, true, true, true⟩) = none := by
  have hlen : (List.replicate 136 0).length = 136 := List.length_replicate _ _
  have hsize : (List.replicate 136 0).length < SIZE_MOD := by
    rw [hlen]
    decide
  have hover := read_char_rom_overrun (List.replicate 136 0) hsize (by rw [hlen])
  have hrows : (alloc_rows (get_height 136)).length = 8 := by
    unfold alloc_rows
    rw [List.length_replicate]
    decide
  refine ⟨by decide, hrows, ?_, ?_, by decide, ?_, ?_, ?_⟩
  · unfold file_reads
    rw [List.length_map, List.length_range, hlen]
    decide
  · intro r hr
    unfold file_reads at hr
    rw [List.mem_map] at hr
    obtain ⟨k, hk, rfl⟩ := hr
    rw [List.mem_range, hlen] at hk
    unfold CHAR_SIZE at hk
    unfold bytes_read
    simp only [List.length_take, List.length_drop, hlen]
    unfold CHAR_SIZE
    omega
  · apply paint_char_overrun
    rw [hrows]
    decide
  · rw [hlen] at hover
    exact hover
  · rw [main_file_env _ _ hsize (by rw [hlen]; decide), hover]

/-- C8: the placement map `(g, r, c) ↦ (out_row g r, out_col g c / 4)` is
injective on the cells `r, c < 8` of all glyphs, each store starts at byte
`4 *` its pixel column, and for every `N` the map restricted to `g < 16 * N` is
a bijection onto the `8 * N` by 128 pixel grid. -/
theorem C8_blocks_tile_bitmap :
    Set.InjOn (fun p : Nat × Nat × Nat => placement p.1 p.2.1 p.2.2)
      {p | p.2.1 < 8 ∧ p.2.2 < 8} ∧
    (∀ g r c, out_col g c = IMAGE_PIXEL_SIZE * (placement g r c).2) ∧
    ∀ N, Set.BijOn (fun p : Nat × Nat × Nat => placement p.1 p.2.1 p.2.2)
      {p | p.1 < 16 * N ∧ p.2.1 < 8 ∧ p.2.2 < 8} {q | q.1 < 8 * N ∧ q.2 < 128} := by
  have hinj : Set.InjOn (fun p : Nat × Nat × Nat => placement p.1 p.2.1 p.2.2)
      {p | p.2.1 < 8 ∧ p.2.2 < 8} := by
    rintro ⟨g, r, c⟩ ⟨hr, hc⟩ ⟨g', r', c'⟩ ⟨hr', hc'⟩ heq
    simp only [placement_eq, Prod.mk.injEq] at heq
    simp only at hr hc hr' hc'
    unfold out_row CHAR_SIZE CHARS_PER_IMAGE_ROW at heq
    obtain ⟨h1, h2⟩ := heq
    have hg : g = g' := by omega
    have hrr : r = r' := by omega
    have hcc : c = c' := by omega
    rw [hg, hrr, hcc]
  refine ⟨hinj, ?_, ?_⟩
  · intro g r c
    rw [placement_eq]
    unfold out_col CHAR_SIZE CHARS_PER_IMAGE_ROW IMAGE_PIXEL_SIZE
    simp only
    omega
  · intro N
    refine ⟨?_, ?_, ?_⟩
    · rintro ⟨g, r, c⟩ ⟨hg, hr, hc⟩
      simp only at hg hr hc
      simp only [placement_eq, Set.mem_setOf_eq]
      unfold out_row CHAR_SIZE CHARS_PER_IMAGE_ROW
      omega
    · exact hinj.mono (fun p (hp : p.1 < 16 * N ∧ p.2.1 < 8 ∧ p.2.2 < 8) =>
        (⟨hp.2.1, hp.2.2⟩ : p.2.1 < 8 ∧ p.2.2 < 8))
    · rintro ⟨y, x⟩ ⟨hy, hx⟩
      simp only at hy hx
      refine ⟨(glyph_at y x, y % 8, x % 8), ⟨?_, Nat.mod_lt _ (by decide),
        Nat.mod_lt _ (by decide)⟩, ?_⟩
      · show glyph_at y x < 16 * N
        unfold glyph_at CHAR_SIZE CHARS_PER_IMAGE_ROW
        omega
      · simp only [placement_eq, Prod.mk.injEq]
        unfold glyph_at out_row CHAR_SIZE CHARS_PER_IMAGE_ROW
        omega

/-- C9 fails at an input of `2 ^ 29 * 128` bytes: the height `2 ^ 32` is above
every value of the `unsigned int` counter of the allocation loop, the loop
never ends and no bitmap is handed to `write_image`. For every `N` with
`8 * N` below `2 ^ 32` and every input of `N * 128` bytes, `main` calls
`write_image` with width 128, height `8 * N` and a bitmap of `8 * N` rows of
`4 * 128` bytes in which every pixel has alpha `0xFF` and is one of
`FF 55 FF FF`, `AA 00 AA FF`, `FF FF FF FF`; no pixel is still all zero. -/
theorem C9_no_bitmap_for_tall_input :
    (List.replicate (2 ^ 29 * 128) 0x81).length = 2 ^ 29 * 128 ∧
    get_height (List.replicate (2 ^ 29 * 128) 0x81).length = 8 * 2 ^ 29 ∧
    UINT_MOD ≤ 8 * 2 ^ 29 ∧
    allocate true [] (8 * 2 ^ 29) = none ∧
    main (file_env (List.replicate (2 ^ 29 * 128) 0x81) ⟨true, true, true, true⟩) = none ∧
    ¬ (∃ r buf, main (file_env (List.replicate (2 ^ 29 * 128) 0x81) ⟨true, true, true, true⟩)
        = some r ∧ r.write_image_calls = [(buf, 128, 8 * 2 ^ 29)]) ∧
    (∀ (N : Nat) (d : List Nat) (png : PngEnv), d.length = N * 128 → 8 * N < UINT_MOD →
      ∃ r buf, main (file_env d png) = some r ∧
        r.write_image_calls = [(buf, 128, 8 * N)] ∧
        buf.length = 8 * N ∧
        (∀ row ∈ buf, row.length = 4 * 128) ∧
        ∀ y x, y < 8 * N → x < 128 →
          ∃ px, pixel buf y x = some px ∧
            px[3]? = some 0xFF ∧
            (px = [0xFF, 0x55, 0xFF, 0xFF] ∨ px = [0xAA, 0x00, 0xAA, 0xFF]
              ∨ px = [0xFF, 0xFF, 0xFF, 0xFF]) ∧
            px ≠ [0, 0, 0, 0]) := by
  have hlen : (List.replicate (2 ^ 29 * 128) 0x81).length = 2 ^ 29 * 128 :=
    List.length_replicate _ _
  have hsize : (List.replicate (2 ^ 29 * 128) 0x81).length < SIZE_MOD := by
    rw [hlen]
    decide
  have hh : get_height (List.replicate (2 ^ 29 * 128) 0x81).length = 8 * 2 ^ 29 := by
    rw [get_height_eq _ hsize, hlen]
    norm_num
  have hbig : UINT_MOD ≤ 8 * 2 ^ 29 := by decide
  have hmain : main (file_env (List.replicate (2 ^ 29 * 128) 0x81) ⟨true, true, true, true⟩)
      = none := main_file_env_never_ends _ _ hsize (by rw [hh]; exact hbig)
  refine ⟨hlen, hh, hbig, allocate_never_ends _ _ _ hbig, hmain, ?_, ?_⟩
  · rintro ⟨r, buf, hr, _⟩
    rw [hmain] at hr
    cases hr
  · intro N d png hd hN
    have hL : d.length < SIZE_MOD := by
      unfold UINT_MOD at hN
      unfold SIZE_MOD
      omega
    obtain ⟨_, _, res, _, _, _, hdims, hpix, hmain⟩ :=
      main_short_tail N 0 d png (by omega) (by decide) hL hN
    rw [alloc_rows_dims] at hdims
    refine ⟨_, res.row_data, hmain, rfl, ?_, ?_, ?_⟩
    · have := congrArg List.length hdims
      rw [List.length_map, List.length_replicate] at this
      exact this
    · intro row hrow
      have hmem : row.length ∈ res.row_data.map List.length := List.mem_map_of_mem _ hrow
      rw [hdims] at hmem
      exact (List.mem_replicate.mp hmem).2
    · intro y x hy hx
      refine ⟨_, hpix y x hy hx, ?_⟩
      rw [background_color_eq]
      unfold WHITE BRIGHT_MAGENTA MAGENTA
      split_ifs <;> simp

/-- C10 fails when `write_image` fails: on a 128-byte input whose output file
cannot be opened, `write_image` returns 1, `main` prints the write error and
still returns 0. The other fatal paths (wrong argument count, `open` or a
`lseek` failing) return 1. -/
theorem C10_write_failure_exit_zero :
    (∃ r, main (file_env (List.replicate 128 0) ⟨false, true, true, true⟩) = some r ∧
      (∀ buf w h, (write_image ⟨false, true, true, true⟩ buf w h).1 = 1) ∧
      r.write_image_calls.length = 1 ∧
      Msg.error_writing_file ∈ r.output ∧
      r.exit_code = 0) ∧
    (∀ env r, main env = some r → (env.argc ≠ 3 ∧ env.argc ≠ 4) → r.exit_code = 1) ∧
    (∀ env r, main env = some r → env.open_result = -1 → r.exit_code = 1) ∧
    (∀ env r, main env = some r → env.lseek_end = -1 → r.exit_code = 1) := by
  have hlen : (List.replicate 128 0).length = 128 * 1 + 0 := by simp
  have hsize : (List.replicate 128 0).length < SIZE_MOD := by
    rw [List.length_replicate]
    decide
  obtain ⟨_, _, res, _, _, _, _, _, hmain⟩ :=
    main_short_tail 1 0 (List.replicate 128 0) ⟨false, true, true, true⟩ hlen (by decide) hsize
      (by decide)
  refine ⟨⟨_, hmain, fun _ _ _ => rfl, rfl, ?_, rfl⟩, ?_, ?_, ?_⟩
  · have hw : (write_image ⟨false, true, true, true⟩ res.row_data IMAGE_WIDTH (8 * 1)).1 ≠ 0 := by
      simp [write_image]
    simp only [if_pos hw]
    simp
  · intro env r hrun hargc
    simp only [main, if_pos hargc, Option.some.injEq] at hrun
    rw [← hrun]
  · intro env r hrun hopen
    by_cases hargc : env.argc ≠ 3 ∧ env.argc ≠ 4
    · simp only [main, if_pos hargc, Option.some.injEq] at hrun
      rw [← hrun]
    · simp only [main, if_neg hargc, if_pos hopen, Option.some.injEq] at hrun
      rw [← hrun]
  · intro env r hrun hseek
    by_cases hargc : env.argc ≠ 3 ∧ env.argc ≠ 4
    · simp only [main, if_pos hargc, Option.some.injEq] at hrun
      rw [← hrun]
    · by_cases hopen : env.open_result = -1
      · simp only [main, if_neg hargc, if_pos hopen, Option.some.injEq] at hrun
        rw [← hrun]
      · simp only [main, if_neg hargc, if_neg hopen, if_pos hseek, Option.some.injEq] at hrun
        rw [← hrun]

/-- C11: in every run of `main` that reaches the count comparison (the
arguments, `open` and both `lseek` calls are accepted, the allocation ends
with a bitmap `rows`, and `read_char_rom` returns over it), when the count
returned by `read_char_rom` differs from `(height / 8) * (128 / 8)` the run
reports the mismatch, returns 1 and makes no call of `write_image`; when the
counts are equal `write_image` is called exactly once, with width 128 and the
computed height. -/
theorem C11_count_mismatch_is_fatal (env : MainEnv) (rows : Buffer) (res : RomResult)
    (hargc : env.argc = 3 ∨ env.argc = 4) (hopen : env.open_result ≠ -1)
    (hend : env.lseek_end ≠ -1) (hset : to_size_t env.lseek_set = offset_of env)
    (halloc : allocate env.malloc_ok env.calloc_null (get_height (usable_bytes env))
      = some rows)
    (hrun : read_char_rom env.reads rows = some res) :
    chars_expected env = ((get_height (usable_bytes env) / 8) * (128 / 8)) % SIZE_MOD ∧
    ∃ r, main env = some r ∧
      (res.chars_processed ≠ chars_expected env →
        r.exit_code = 1 ∧
        Msg.error_read_expected res.chars_processed (chars_expected env) ∈ r.output ∧
        r.write_image_calls = []) ∧
      (res.chars_processed = chars_expected env →
        r.write_image_calls = [(res.row_data, 128, get_height (usable_bytes env))]) := by
  refine ⟨rfl, ?_⟩
  have hm := main_reached env rows hargc hopen hend hset halloc
  rw [hrun] at hm
  by_cases hcount : res.chars_processed ≠ chars_expected env
  · simp only [if_pos hcount] at hm
    refine ⟨_, hm, fun _ => ⟨rfl, by simp, rfl⟩, fun h => absurd h hcount⟩
  · simp only [if_neg hcount] at hm
    refine ⟨_, hm, fun h => absurd h hcount, fun _ => rfl⟩

/-- C11 on a source cut after its size was taken: 8 rows allocated, 16 glyphs
expected, none read. -/
theorem C11_count_mismatch_is_fatal_witness :
    (truncated_env.argc = 3 ∨ truncated_env.argc = 4) ∧ truncated_env.open_result ≠ -1 ∧
    truncated_env.lseek_end ≠ -1 ∧
    to_size_t truncated_env.lseek_set = offset_of truncated_env ∧
    allocate truncated_env.malloc_ok truncated_env.calloc_null
      (get_height (usable_bytes truncated_env)) = some (alloc_rows 8) ∧
    read_char_rom truncated_env.reads (alloc_rows 8) = some ⟨0, alloc_rows 8, [], []⟩ ∧
    (0 : Nat) ≠ chars_expected truncated_env ∧
    chars_expected truncated_env
      = ((get_height (usable_bytes truncated_env) / 8) * (128 / 8)) % SIZE_MOD ∧
    ∃ r, main truncated_env = some r ∧
      ((0 : Nat) ≠ chars_expected truncated_env →
        r.exit_code = 1 ∧
        Msg.error_read_expected 0 (chars_expected truncated_env) ∈ r.output ∧
        r.write_image_calls = []) ∧
      ((0 : Nat) = chars_expected truncated_env →
        r.write_image_calls
          = [(alloc_rows 8, 128, get_height (usable_bytes truncated_env))]) :=
  have hh : get_height (usable_bytes truncated_env) = 8 := by decide
  have halloc : allocate truncated_env.malloc_ok truncated_env.calloc_null
      (get_height (usable_bytes truncated_env)) = some (alloc_rows 8) := by
    rw [hh]
    exact allocate_ok 8 (by decide)
  ⟨Or.inl rfl, by decide, by decide, by decide, halloc, rfl, by decide,
    C11_count_mismatch_is_fatal truncated_env (alloc_rows 8) ⟨0, alloc_rows 8, [], []⟩
      (Or.inl rfl) (by decide) (by decide) (by decide) halloc rfl⟩

/-! ## A failing `read` -/

theorem read_loop_failed (fd : List ReadOutcome) (cp : Nat) (rows : Buffer) (out : List Msg) :
    read_char_rom_loop (none :: fd) cp rows out =
      some ⟨cp, rows, out ++ [Msg.warning_not_processed (-1)], fd⟩ := by
  have hne : bytes_read none ≠ 0 := by decide
  have hne8 : bytes_read none ≠ (CHAR_SIZE : Int) := by decide
  rw [read_char_rom_loop, if_neg hne, if_pos hne8]
  rfl

/-- After any number of complete records, a call of `read` that returns `-1`
ends the pass like a short read: the count so far is returned and the warning
is printed with the value `-1`. -/
theorem read_char_rom_failed_read (fulls : List (List Nat)) (rest : List ReadOutcome)
    (rows : Buffer) (hlen : ∀ bs ∈ fulls, bs.length = CHAR_SIZE)
    (hfit : ∀ g, g < fulls.length → Fits rows (out_row g CHAR_SIZE)) :
    ∃ res, read_char_rom (fulls.map some ++ none :: rest) rows = some res ∧
      res.chars_processed = fulls.length ∧
      res.output = [Msg.warning_not_processed (-1)] ∧
      res.fd = rest ∧
      res.row_data.map List.length = rows.map List.length := by
  obtain ⟨rows', hs, hd, _⟩ := read_loop_full (none :: rest) fulls 0 rows [] hlen
    (fun g _ hg => hfit g (by omega))
  unfold read_char_rom
  rw [hs, read_loop_failed, Nat.zero_add]
  exact ⟨_, rfl, rfl, rfl, rfl, hd⟩

/-- A file of `128 * N` bytes whose records are all delivered and whose next
`read` fails: the count `16 * N` matches the expected count and `main` goes on
to `write_image` and returns 0. -/
theorem main_failing_read (N : Nat) (d : List Nat) (png : PngEnv)
    (hd : d.length = 128 * N) (hL : d.length < SIZE_MOD) (hN : 8 * N < UINT_MOD) :
    ∃ res, read_char_rom (failing_read_env d png).reads (alloc_rows (8 * N)) = some res ∧
      res.chars_processed = 16 * N ∧
      res.output = [Msg.warning_not_processed (-1)] ∧
      main (failing_read_env d png) =
        some ⟨0, [Msg.reading_character_rom] ++ res.output ++ [Msg.writing_output_image]
            ++ (write_image png res.row_data IMAGE_WIDTH (8 * N)).2
            ++ (if (write_image png res.row_data IMAGE_WIDTH (8 * N)).1 ≠ 0
                then [Msg.error_writing_file] else []),
          [(res.row_data, IMAGE_WIDTH, 8 * N)]⟩ := by
  have hu : usable_bytes (failing_read_env d png) = d.length := by
    unfold usable_bytes offset_of failing_read_env
    simp only [Nat.reduceEqDiff, if_false, Int.natCast_zero, Int.sub_zero]
    exact to_size_t_natCast _ hL
  have hh : get_height d.length = 8 * N := by
    rw [get_height_eq _ hL]
    omega
  have hexp : chars_expected (failing_read_env d png) = 16 * N := by
    unfold chars_expected
    rw [hu, hh]
    unfold IMAGE_WIDTH
    have e : 8 * N / 8 * (128 / 8) = 16 * N := by omega
    rw [e]
    apply Nat.mod_eq_of_lt
    unfold SIZE_MOD at *
    omega
  have hreads : (failing_read_env d png).reads
      = ((List.range (d.length / 8)).map fun k => (d.drop (8 * k)).take 8).map some
          ++ none :: [] := by
    unfold failing_read_env
    simp only
    rw [file_reads_split, if_pos (by omega), List.append_nil]
  obtain ⟨res, hrun, hcount, hout, _, _⟩ :=
    read_char_rom_failed_read
      ((List.range (d.length / 8)).map fun k => (d.drop (8 * k)).take 8) [] (alloc_rows (8 * N))
      (full_records_length _)
      (by
        intro g hg
        rw [List.length_map, List.length_range] at hg
        apply Fits_mono _ (Fits_alloc_rows (8 * N))
        unfold out_row CHAR_SIZE CHARS_PER_IMAGE_ROW
        omega)
  rw [List.length_map, List.length_range] at hcount
  have hc : res.chars_processed = 16 * N := by
    rw [hcount]
    omega
  rw [← hreads] at hrun
  refine ⟨res, hrun, hc, hout, ?_⟩
  have halloc : allocate (failing_read_env d png).malloc_ok (failing_read_env d png).calloc_null
      (get_height (usable_bytes (failing_read_env d png))) = some (alloc_rows (8 * N)) := by
    rw [hu, hh]
    exact allocate_ok _ hN
  have hm := main_reached (failing_read_env d png) _ (Or.inl rfl)
    (by unfold failing_read_env; simp only; decide)
    (by unfold failing_read_env; simp only; omega)
    (by unfold failing_read_env offset_of; simp only; decide) halloc
  rw [hu, hh, hrun, hexp] at hm
  have hne : ¬ (res.chars_processed ≠ 16 * N) := fun h => h hc
  simp only [if_neg hne] at hm
  exact hm

/-- C12 fails when the failing call comes after the expected glyphs: on a
128-byte file whose 16 records are delivered and whose next `read` returns
`-1`, `read_char_rom` prints the trailing-bytes warning with the value `-1` and
returns 16, the count matches, and `main` calls `write_image` and returns 0.
For every number of records read before it, the failing call is handled as a
short read. -/
theorem C12_read_failure_not_fatal :
    (∀ (fulls : List (List Nat)) (rest : List ReadOutcome) (rows : Buffer),
      (∀ bs ∈ fulls, bs.length = CHAR_SIZE) →
      (∀ g, g < fulls.length → Fits rows (out_row g CHAR_SIZE)) →
      ∃ res, read_char_rom (fulls.map some ++ none :: rest) rows = some res ∧
        res.chars_processed = fulls.length ∧
        res.output = [Msg.warning_not_processed (-1)] ∧
        res.fd = rest) ∧
    (failing_read_env (List.replicate 128 0) ⟨true, true, true, true⟩).reads.length = 17 ∧
    (failing_read_env (List.replicate 128 0) ⟨true, true, true, true⟩).reads[16]? = some none ∧
    ∃ r, main (failing_read_env (List.replicate 128 0) ⟨true, true, true, true⟩) = some r ∧
      r.exit_code = 0 ∧
      Msg.warning_not_processed (-1) ∈ r.output ∧
      r.write_image_calls.length = 1 := by
  refine ⟨?_, ?_, ?_, ?_⟩
  · intro fulls rest rows hlen hfit
    obtain ⟨res, h1, h2, h3, h4, _⟩ := read_char_rom_failed_read fulls rest rows hlen hfit
    exact ⟨res, h1, h2, h3, h4⟩
  · unfold failing_read_env file_reads
    simp [CHAR_SIZE]
  · unfold failing_read_env file_reads
    simp [CHAR_SIZE]
  · have hlen : (List.replicate 128 0).length = 128 * 1 := List.length_replicate _ _
    have hsize : (List.replicate 128 0).length < SIZE_MOD := by
      rw [List.length_replicate]
      decide
    obtain ⟨res, _, _, hout, hmain⟩ :=
      main_failing_read 1 (List.replicate 128 0) ⟨true, true, true, true⟩ hlen hsize
        (by decide)
    refine ⟨_, hmain, rfl, ?_, rfl⟩
    rw [hout]
    simp

/-- C13: in every run of `main` that ends, each call of `write_image` is made
with width exactly 128 and with the height `get_height L` of the usable byte
count `L` of that run; `get_height L` is a multiple of 8 for every `L`; and on
a regular file read from its start `L` is the length of the file. -/
theorem C13_encoder_dimensions (env : MainEnv) (r : MainResult) (hrun : main env = some r) :
    (∀ call ∈ r.write_image_calls,
      call.2.1 = 128 ∧ call.2.2 = get_height (usable_bytes env) ∧ 8 ∣ call.2.2) ∧
    (∀ L, 8 ∣ get_height L) ∧
    (∀ (d : List Nat) (png : PngEnv), d.length < SIZE_MOD →
      usable_bytes (file_env d png) = d.length) := by
  refine ⟨?_, get_height_dvd, usable_bytes_file_env⟩
  intro call hcall
  rcases main_calls env r hrun with h | ⟨buf, h⟩
  · rw [h] at hcall
    cases hcall
  · rw [h, List.mem_singleton] at hcall
    rw [hcall]
    exact ⟨rfl, rfl, get_height_dvd _⟩

/-- C13 on a 132-byte file: one call, width 128, height 8. -/
theorem C13_encoder_dimensions_witness :
    ∃ r, main (file_env (List.replicate 132 0x81) ⟨true, true, true, true⟩) = some r ∧
      r.write_image_calls.length = 1 ∧
      (∀ call ∈ r.write_image_calls,
        call.2.1 = 128 ∧
        call.2.2
          = get_height (usable_bytes (file_env (List.replicate 132 0x81)
              ⟨true, true, true, true⟩)) ∧
        8 ∣ call.2.2) ∧
      (∀ L, 8 ∣ get_height L) ∧
      (∀ (d : List Nat) (png : PngEnv), d.length < SIZE_MOD →
        usable_bytes (file_env d png) = d.length) := by
  have hlen : (List.replicate 132 0x81).length = 128 * 1 + 4 := List.length_replicate _ _
  have hsize : (List.replicate 132 0x81).length < SIZE_MOD := by
    rw [List.length_replicate]
    decide
  obtain ⟨_, _, res, _, _, _, _, _, hmain⟩ :=
    main_short_tail 1 4 (List.replicate 132 0x81) ⟨true, true, true, true⟩ hlen (by decide) hsize
      (by decide)
  exact ⟨_, hmain, rfl, C13_encoder_dimensions _ _ hmain⟩

/-- C14: the background tones form a checkerboard over the 16-column grid:
glyph `g` and the glyph below it, `g + 16`, have different tones, and when
`g % 16 ≠ 15` glyph `g` and its right-hand neighbour `g + 1` have different
tones. -/
theorem C14_checkerboard (g : Nat) :
    background_color g ≠ background_color (g + 16) ∧
    (g % 16 ≠ 15 → background_color g ≠ background_color (g + 1)) := by
  have hne : BRIGHT_MAGENTA ≠ MAGENTA := by decide
  refine ⟨?_, ?_⟩
  · have e : (g + 16) / 16 = g / 16 + 1 := by omega
    rw [background_color_eq, background_color_eq, e]
    by_cases h : (g + g / 16) % 2 = 0
    · rw [if_pos h, if_neg (by omega)]
      exact hne
    · rw [if_neg h, if_pos (by omega)]
      exact hne.symm
  · intro h15
    have e : (g + 1) / 16 = g / 16 := by omega
    rw [background_color_eq, background_color_eq, e]
    by_cases h : (g + g / 16) % 2 = 0
    · rw [if_pos h, if_neg (by omega)]
      exact hne
    · rw [if_neg h, if_pos (by omega)]
      exact hne.symm

/-! ## Inputs shorter than one grid row -/

theorem main_overrun (d : List Nat) (png : PngEnv) (hL : d.length < SIZE_MOD)
    (h : 8 ≤ d.length % 128) : main (file_env d png) = none := by
  by_cases hh : get_height d.length < UINT_MOD
  · rw [main_file_env d png hL hh, read_char_rom_overrun d hL h]
  · exact main_file_env_never_ends d png hL (by omega)

theorem buffer_eq_nil_of_dims {rows : Buffer}
    (h : rows.map List.length = (alloc_rows 0).map List.length) : rows = [] := by
  have hl := congrArg List.length h
  rw [List.length_map, List.length_map] at hl
  exact List.length_eq_zero.mp hl

/-- C15 fails at 8 bytes: the height is 0 and the bitmap has no row, but the
first `read` delivers a complete record, so `read_char_rom` paints glyph 0 and
stores out of range; neither the pass nor `main` ends with a count of 0. On a
bitmap that holds the block the same reads give the count 1. -/
theorem C15_eight_bytes_counterexample :
    (List.replicate 8 0).length ≤ 127 ∧
    get_height (List.replicate 8 0).length = 0 ∧
    file_reads (List.replicate 8 0) = [some (List.replicate 8 0)] ∧
    bytes_read (some (List.replicate 8 0)) = 8 ∧
    ¬ (∃ res, read_char_rom (file_reads (List.replicate 8 0))
        (alloc_rows (get_height (List.replicate 8 0).length)) = some res ∧
        res.chars_processed = 0) ∧
    ¬ (∃ r, main (file_env (List.replicate 8 0) ⟨true, true, true, true⟩) = some r) ∧
    ∃ res, read_char_rom (file_reads (List.replicate 8 0)) (alloc_rows 8) = some res ∧
      res.chars_processed = 1 := by
  have hlen : (List.replicate 8 0).length = 8 := List.length_replicate _ _
  have hsize : (List.replicate 8 0).length < SIZE_MOD := by
    rw [hlen]
    decide
  have hover := read_char_rom_overrun (List.replicate 8 0) hsize (by rw [hlen])
  have hmain := main_overrun (List.replicate 8 0) ⟨true, true, true, true⟩ hsize (by rw [hlen])
  refine ⟨by decide, by decide, by decide, by decide, ?_, ?_, ?_⟩
  · rintro ⟨res, hres, _⟩
    rw [hover] at hres
    cases hres
  · rintro ⟨r, hr⟩
    rw [hmain] at hr
    cases hr
  · obtain ⟨res, hrun, hcount, _⟩ :=
      read_char_rom_file (List.replicate 8 0) (alloc_rows 8) [] (Or.inr rfl) (by
        intro g hg
        rw [hlen] at hg
        apply Fits_mono _ (Fits_alloc_rows 8)
        unfold out_row CHAR_SIZE CHARS_PER_IMAGE_ROW
        omega)
    rw [List.append_nil] at hrun
    exact ⟨res, hrun, by rw [hcount, hlen]⟩

/-- C15, amended: for every input of at most 127 bytes `main` computes the
height 0 and allocates no row; when the input has at most 7 bytes no complete
record is read, the pass returns the count 0 and leaves the bitmap empty, the
count equals the expected count 0, and the run prints no count mismatch and
calls `write_image` once with width 128 and height 0. -/
theorem C15_short_input_degenerate (d : List Nat) (png : PngEnv) (hL : d.length ≤ 127) :
    get_height d.length = 0 ∧
    alloc_rows (get_height d.length) = [] ∧
    (d.length ≤ 7 →
      ∃ res r, read_char_rom (file_reads d) (alloc_rows (get_height d.length)) = some res ∧
        res.chars_processed = 0 ∧
        res.row_data = [] ∧
        (0 < d.length → res.output = [Msg.warning_not_processed (d.length : Int)]) ∧
        res.chars_processed = chars_expected (file_env d png) ∧
        main (file_env d png) = some r ∧
        (∀ p e, Msg.error_read_expected p e ∉ r.output) ∧
        r.write_image_calls = [([], 128, 0)]) := by
  have hsize : d.length < SIZE_MOD := by
    unfold SIZE_MOD
    omega
  have hh : get_height d.length = 0 := by
    rw [get_height_eq _ hsize]
    omega
  refine ⟨hh, by rw [hh]; rfl, ?_⟩
  intro h7
  obtain ⟨_, hexp, res, hrun, hc, hout, hdims, _, hmain⟩ :=
    main_short_tail 0 d.length d png (by omega) (by omega) hsize (by decide)
  have hrows : res.row_data = [] := buffer_eq_nil_of_dims hdims
  have hce : chars_expected (file_env d png) = 0 := by
    unfold chars_expected
    rw [usable_bytes_file_env d png hsize, hexp]
  refine ⟨res, _, hrun, hc, hrows, ?_, by rw [hc, hce], hmain, ?_, by rw [hrows]; rfl⟩
  · intro hpos
    rw [hout, if_neg (by omega)]
  · intro p e hmem
    have hw := write_image_no_count_error png res.row_data IMAGE_WIDTH 0 p e
    by_cases h0 : d.length = 0 <;>
      by_cases h1 : (write_image png res.row_data IMAGE_WIDTH (8 * 0)).1 = 0 <;>
      simp [hout, h0, h1, hw] at hmem

/-- C15, amended, on a 5-byte input. -/
theorem C15_short_input_degenerate_witness :
    ([1, 2, 3, 4, 5] : List Nat).length ≤ 127 ∧
    get_height ([1, 2, 3, 4, 5] : List Nat).length = 0 ∧
    alloc_rows (get_height ([1, 2, 3, 4, 5] : List Nat).length) = [] ∧
    (([1, 2, 3, 4, 5] : List Nat).length ≤ 7 →
      ∃ res r, read_char_rom (file_reads [1, 2, 3, 4, 5])
          (alloc_rows (get_height ([1, 2, 3, 4, 5] : List Nat).length)) = some res ∧
        res.chars_processed = 0 ∧
        res.row_data = [] ∧
        (0 < ([1, 2, 3, 4, 5] : List Nat).length →
          res.output
            = [Msg.warning_not_processed ((([1, 2, 3, 4, 5] : List Nat).length : Nat) : Int)]) ∧
        res.chars_processed = chars_expected (file_env [1, 2, 3, 4, 5] ⟨true, true, true, true⟩) ∧
        main (file_env [1, 2, 3, 4, 5] ⟨true, true, true, true⟩) = some r ∧
        (∀ p e, Msg.error_read_expected p e ∉ r.output) ∧
        r.write_image_calls = [([], 128, 0)]) :=
  ⟨by decide, C15_short_input_degenerate [1, 2, 3, 4, 5] ⟨true, true, true, true⟩ (by decide)⟩

/-- C16 fails at a 200-byte input: 25 complete records against 16 expected
glyphs, but `main` allocates 8 rows and the pass stores out of range while it
paints glyph 16, so neither `read_char_rom` returns 25 nor does `main` reach
the count comparison. The same holds for every length with
`L % 128 ≥ 8`; on a bitmap of 16 rows the pass does return 25. -/
theorem C16_overrun_before_check :
    (List.replicate 200 0).length % 128 ≥ 8 ∧
    16 * ((List.replicate 200 0).length / 128) < (List.replicate 200 0).length / 8 ∧
    chars_expected (file_env (List.replicate 200 0) ⟨true, true, true, true⟩) = 16 ∧
    read_char_rom (file_reads (List.replicate 200 0))
      (alloc_rows (get_height (List.replicate 200 0).length)) = none ∧
    main (file_env (List.replicate 200 0) ⟨true, true, true, true⟩) = none ∧
    (∃ res, read_char_rom (file_reads (List.replicate 200 0)) (alloc_rows 16) = some res ∧
      res.chars_processed = 25) ∧
    (∀ (d : List Nat) (png : PngEnv), d.length < SIZE_MOD → 8 ≤ d.length % 128 →
      16 * (d.length / 128) < d.length / 8 ∧ main (file_env d png) = none) := by
  have hlen : (List.replicate 200 0).length = 200 := List.length_replicate _ _
  have hsize : (List.replicate 200 0).length < SIZE_MOD := by
    rw [hlen]
    decide
  have hmod : 8 ≤ (List.replicate 200 0).length % 128 := by
    rw [hlen]
    decide
  refine ⟨hmod, by rw [hlen]; decide, ?_, read_char_rom_overrun _ hsize hmod,
    main_overrun _ _ hsize hmod, ?_, ?_⟩
  · unfold chars_expected
    rw [usable_bytes_file_env _ _ hsize, hlen]
    decide
  · obtain ⟨res, hrun, hcount, _⟩ :=
      read_char_rom_file (List.replicate 200 0) (alloc_rows 16) [] (Or.inr rfl) (by
        intro g hg
        rw [hlen] at hg
        apply Fits_mono _ (Fits_alloc_rows 16)
        unfold out_row CHAR_SIZE CHARS_PER_IMAGE_ROW
        omega)
    rw [List.append_nil] at hrun
    exact ⟨res, hrun, by rw [hcount, hlen]⟩
  · intro d png hL h
    exact ⟨by omega, main_overrun d png hL h⟩

/-! ## What one glyph leaves untouched -/

/-- Two bitmaps with the same row lengths and the same four bytes at a pixel
have the same pixel there. -/
theorem pixel_congr {rows rows' : Buffer} {y x : Nat}
    (hd : rows'.map List.length = rows.map List.length)
    (hb : ∀ k, k < 4 → getByte rows' y (4 * x + k) = getByte rows y (4 * x + k)) :
    pixel rows' y x = pixel rows y x := by
  have hlen : (rows'[y]?).map List.length = (rows[y]?).map List.length := by
    rw [← List.getElem?_map, ← List.getElem?_map, hd]
  unfold pixel
  unfold getByte at hb
  cases h : rows[y]? with
  | none =>
    rw [h] at hlen
    cases h' : rows'[y]? with
    | none => rfl
    | some r' =>
      rw [h'] at hlen
      cases hlen
  | some r =>
    rw [h] at hlen
    cases h' : rows'[y]? with
    | none =>
      rw [h'] at hlen
      cases hlen
    | some r' =>
      rw [h'] at hlen
      simp only [Option.map_some', Option.some.injEq] at hlen
      simp only [h, h'] at hb
      simp only [hlen]
      by_cases hfit : IMAGE_PIXEL_SIZE * x + IMAGE_PIXEL_SIZE ≤ r.length
      · rw [if_pos hfit, if_pos hfit]
        congr 1
        apply List.ext_getElem?
        intro k
        unfold IMAGE_PIXEL_SIZE
        by_cases hk : k < 4
        · rw [List.getElem?_take_of_lt hk, List.getElem?_take_of_lt hk, List.getElem?_drop,
            List.getElem?_drop]
          exact hb k hk
        · rw [List.getElem?_eq_none_iff.mpr (by rw [List.length_take]; omega),
            List.getElem?_eq_none_iff.mpr (by rw [List.length_take]; omega)]
      · rw [if_neg hfit, if_neg hfit]

/-- C17: when the block of glyph `g` lies inside the bitmap, one iteration of
the glyph loop of `read_char_rom` (a complete record `bs` read, glyph `g`
painted, the counter stepped) keeps every row length and changes no byte
outside rows `(g / 16) * 8 .. (g / 16) * 8 + 7` and pixel columns
`(g % 16) * 8 .. (g % 16) * 8 + 7`: every pixel outside the block, and so every
pixel of the block of another glyph, is what it was. -/
theorem C17_only_own_block_changes (g : Nat) (bs : List Nat) (rows : Buffer)
    (fd : List ReadOutcome) (out : List Msg) (hbs : bs.length = CHAR_SIZE)
    (hfit : Fits rows (out_row g CHAR_SIZE)) :
    ∃ rows', paint_char g bs rows = some rows' ∧
      read_char_rom_loop (some bs :: fd) g rows out
        = read_char_rom_loop fd (g + 1) rows' out ∧
      rows'.map List.length = rows.map List.length ∧
      (∀ y i, ¬ (((g / 16) * 8 ≤ y ∧ y < (g / 16) * 8 + 8) ∧
          4 * ((g % 16) * 8) ≤ i ∧ i < 4 * ((g % 16) * 8 + 8)) →
        getByte rows' y i = getByte rows y i) ∧
      (∀ y x, ¬ (((g / 16) * 8 ≤ y ∧ y < (g / 16) * 8 + 8) ∧
          (g % 16) * 8 ≤ x ∧ x < (g % 16) * 8 + 8) →
        pixel rows' y x = pixel rows y x) ∧
      (∀ g' r c, g' ≠ g → r < 8 → c < 8 →
        pixel rows' (placement g' r c).1 (placement g' r c).2
          = pixel rows (placement g' r c).1 (placement g' r c).2) := by
  obtain ⟨rows', hrun, hdims, hbytes⟩ := paint_char_of_Fits g bs rows hfit
  have hframe : ∀ y i, ¬ (((g / 16) * 8 ≤ y ∧ y < (g / 16) * 8 + 8) ∧
      4 * ((g % 16) * 8) ≤ i ∧ i < 4 * ((g % 16) * 8 + 8)) →
      getByte rows' y i = getByte rows y i := by
    intro y i hout
    rw [hbytes y i, if_neg]
    intro hin
    apply hout
    have hb := (block_iff g y i).mpr hin
    unfold out_row out_col CHAR_SIZE CHARS_PER_IMAGE_ROW IMAGE_PIXEL_SIZE at hb
    omega
  have hpix : ∀ y x, ¬ (((g / 16) * 8 ≤ y ∧ y < (g / 16) * 8 + 8) ∧
      (g % 16) * 8 ≤ x ∧ x < (g % 16) * 8 + 8) →
      pixel rows' y x = pixel rows y x := by
    intro y x hout
    apply pixel_congr hdims
    intro k hk
    apply hframe
    intro hin
    apply hout
    omega
  refine ⟨rows', hrun, ?_, hdims, hframe, hpix, ?_⟩
  · rw [read_loop_cons_full _ _ _ _ _ hbs, hrun]
  · intro g' r c hne hr hc
    apply hpix
    rw [placement_eq]
    unfold out_row CHAR_SIZE CHARS_PER_IMAGE_ROW
    simp only
    omega

/-- C17 on glyph 17 painted into a zero-filled bitmap of 16 rows. -/
theorem C17_only_own_block_changes_witness :
    (List.replicate 8 0xFF).length = CHAR_SIZE ∧ Fits (alloc_rows 16) (out_row 17 CHAR_SIZE) ∧
    ∃ rows', paint_char 17 (List.replicate 8 0xFF) (alloc_rows 16) = some rows' ∧
      read_char_rom_loop (some (List.replicate 8 0xFF) :: []) 17 (alloc_rows 16) []
        = read_char_rom_loop [] (17 + 1) rows' [] ∧
      rows'.map List.length = (alloc_rows 16).map List.length ∧
      (∀ y i, ¬ (((17 / 16) * 8 ≤ y ∧ y < (17 / 16) * 8 + 8) ∧
          4 * ((17 % 16) * 8) ≤ i ∧ i < 4 * ((17 % 16) * 8 + 8)) →
        getByte rows' y i = getByte (alloc_rows 16) y i) ∧
      (∀ y x, ¬ (((17 / 16) * 8 ≤ y ∧ y < (17 / 16) * 8 + 8) ∧
          (17 % 16) * 8 ≤ x ∧ x < (17 % 16) * 8 + 8) →
        pixel rows' y x = pixel (alloc_rows 16) y x) ∧
      (∀ g' r c, g' ≠ 17 → r < 8 → c < 8 →
        pixel rows' (placement g' r c).1 (placement g' r c).2
          = pixel (alloc_rows 16) (placement g' r c).1 (placement g' r c).2) :=
  ⟨by decide, Fits_alloc_rows 16,
    C17_only_own_block_changes 17 (List.replicate 8 0xFF) (alloc_rows 16) [] []
      (by decide) (Fits_alloc_rows 16)⟩

end CgaFontPrint
